import Mathlib

/-!
# The target state store (`internal/server/singleprocess/state/target.go`)

A shallow embedding of the target part of the single-process server state:
a durable key-value store (bolt) paired with an in-memory index (go-memdb),
and the operations `TargetFind`, `TargetPut`, `TargetDelete`, `TargetGet`,
`TargetList` and `targetIndexInit` that keep the two in step.

Go strings are Lean strings; the Unicode case table the name index lowercases with
is a parameter of the lookups by name.  Pointers that the source tests against `nil`
or dereferences are `Option`s; a dereference of `nil` is the outcome
`Result.panicked`.  A Go `error` is a value of `Error`.  A transaction is a
working copy of the stores: it becomes the new state on commit and is dropped
on rollback or abort.
-/

namespace state

/-! ## Byte order of keys -/

/-- Go `bytes.Compare(a, b) < 0`: the lexicographic order in which bolt keeps
the keys of a bucket and go-memdb the keys of an index. -/
def bytesLess : List Nat → List Nat → Bool
  | [], [] => false
  | [], _ :: _ => true
  | _ :: _, [] => false
  | a :: as, b :: bs => decide (a < b) || (decide (a = b) && bytesLess as bs)

/-- Order of two keys `[]byte(a)`, `[]byte(b)`.  The comparison is made on code
points, which order strings exactly as their UTF-8 bytes do. -/
def keyLess (a b : String) : Bool :=
  bytesLess (a.data.map Char.toNat) (b.data.map Char.toNat)

/-- Go `bytes.HasPrefix(key, start)`: the byte string `key` begins with `start`. -/
def bytesStartWith : List Nat → List Nat → Bool
  | _, [] => true
  | [], _ :: _ => false
  | a :: as, b :: bs => decide (a = b) && bytesStartWith as bs

/-- Go `strings.ToLower`, as used by a `StringFieldIndex` with `Lowercase: true`: every
rune of the string is mapped by `unicode.ToLower`.  The case table of package unicode
is not part of the sources; it is the parameter `rune`, and what is proved of the
name lookup is proved for every `rune`. -/
def ToLower (rune : Char → Char) (s : String) : String := ⟨s.data.map rune⟩

/-! ## Ordered collections (a bolt bucket, a go-memdb table) -/

/-- Exact lookup of the entry filed under `k`. -/
def kvGet {α : Type} (key : α → String) (k : String) (l : List α) : Option α :=
  l.find? (fun x => decide (key x = k))

/-- Write of an entry: it replaces the entry filed under the same key, or is
added at its place in key order. -/
def kvPut {α : Type} (key : α → String) (x : α) : List α → List α
  | [] => [x]
  | y :: ys =>
    if keyLess (key x) (key y) then x :: y :: ys
    else if key x = key y then x :: ys
    else y :: kvPut key x ys

/-- Removal of whatever is filed under `k`; nothing happens when `k` is absent. -/
def kvDelete {α : Type} (key : α → String) (k : String) (l : List α) : List α :=
  l.filter (fun x => !decide (key x = k))

/-- The entry with the least key of a list, the first one met by an iterator over a
go-memdb index; of entries with the same key the earlier one is kept. -/
def leastKey {α : Type} (key : α → List Nat) : List α → Option α
  | [] => none
  | x :: xs =>
    match leastKey key xs with
    | none => some x
    | some y => if bytesLess (key y) (key x) then some y else some x

/-! ## Records -/

/-- Message `vagrant_plugin_sdk.Ref_Basis`. -/
structure Ref_Basis where
  ResourceId : String
  Name : String
deriving DecidableEq, Repr

/-- Message `vagrant_plugin_sdk.Ref_Project`; `Basis` is a pointer. -/
structure Ref_Project where
  ResourceId : String
  Name : String
  Basis : Option Ref_Basis
deriving DecidableEq, Repr

/-- Message `vagrant_plugin_sdk.Ref_Target`; `Project` is a pointer. -/
structure Ref_Target where
  ResourceId : String
  Name : String
  Project : Option Ref_Project
deriving DecidableEq, Repr

/-- Message `vagrant_server.Target`: the fields the state layer reads, and the
remaining fields of the message gathered in `Payload`. -/
structure Target where
  ResourceId : String
  Name : String
  Project : Option Ref_Project
  Payload : String
deriving DecidableEq, Repr

/-- Modelled from the spec: the message `vagrant_server.Project` is not in the
sources at hand.  "Parent Entity Record: identity ResourceId, a collection of
back-references to child entities (Targets: set of child resource identifiers,
unique, order-irrelevant)". -/
structure Project where
  ResourceId : String
  Name : String
  Targets : List String
  Payload : String
deriving DecidableEq, Repr

/-- Record of the table "target-index". -/
structure targetIndexRecord where
  Id : String
  Name : String
  ProjectId : String
deriving DecidableEq, Repr

/-- Modelled from the spec: the index record of a project ("Index Record: Id
(unique), Name"); the project schema is not in the sources at hand. -/
structure projectIndexRecord where
  Id : String
  Name : String
deriving DecidableEq, Repr

/-- The value stored under a key of a bucket: the encoding of a record, or bytes
that `proto.Unmarshal` rejects. -/
inductive Stored (α : Type) where
  | record (v : α)
  | corrupt
deriving DecidableEq, Repr

/-! ## Errors and outcomes -/

/-- The errors the operations can return. -/
inductive Error where
  /-- The gRPC status `codes.NotFound` built by `status.Errorf`. -/
  | statusNotFound
  /-- The error `memdb.ErrNotFound` of `Txn.Delete` for an object that is not in the table. -/
  | memdbNotFound
  /-- The go-memdb error "object missing primary index". -/
  | memdbMissingPrimary
  /-- The go-memdb error "missing value for index" of an index with `AllowMissing: false`. -/
  | memdbMissingValue
  /-- The bolt error `ErrKeyRequired` of a `Put` with an empty key. -/
  | boltKeyRequired
  /-- A failure of `proto.Unmarshal`. -/
  | unmarshal
  /-- A failure of the identifier generator. -/
  | idGeneration
  /-- Any other failure of a store (encoding, size limits, input and output). -/
  | store
deriving DecidableEq, Repr

/-- The error kinds of the design. -/
inductive Kind where
  | NotFound
  | EncodingFailure
  | StoreFailure
  | IdentifierGenerationFailure
deriving DecidableEq, Repr

/-- Kind of an error: "NotFound (requested record or its required parent does
not exist)", "EncodingFailure (stored bytes cannot be decoded)", "StoreFailure
(underlying durable or index store operation failed)". -/
def Error.kind : Error → Kind
  | .statusNotFound => .NotFound
  | .memdbNotFound => .NotFound
  | .memdbMissingPrimary => .StoreFailure
  | .memdbMissingValue => .StoreFailure
  | .boltKeyRequired => .StoreFailure
  | .unmarshal => .EncodingFailure
  | .idGeneration => .IdentifierGenerationFailure
  | .store => .StoreFailure

/-- Outcome of a Go call: a value with a nil error, a non-nil error, or a
run-time panic (nil pointer dereference). -/
inductive Result (α : Type) where
  | ok (v : α)
  | err (e : Error)
  | panicked
deriving DecidableEq, Repr

/-! ## The two stores -/

/-- The bolt database: the buckets "target" and "project". -/
structure DB where
  target : List (String × Stored Target)
  project : List (String × Stored Project)
deriving DecidableEq, Repr

/-- The go-memdb database: the tables "target-index" and the project index. -/
structure MemDB where
  target : List targetIndexRecord
  project : List projectIndexRecord
deriving DecidableEq, Repr

/-- The receiver `*State`: field `db` and field `inmem`.  The same shape serves as
the pair of open transactions (`dbTxn`, `memTxn`) inside an operation. -/
structure State where
  db : DB
  inmem : MemDB
deriving DecidableEq, Repr

/-- What one call meets outside the stores' contents: the value and error the
identifier generator returns, and the failures of encoding, of the parent
write and of the durable commit, if any. -/
structure Env where
  newResourceId : String × Option Error
  dbPut : Option Error
  projectPut : Option Error
  commit : Option Error
deriving DecidableEq, Repr

/-! ## The index schema and the index store -/

/-- Method `newTargetIndexRecord`: projection of a target to its index record. -/
def newTargetIndexRecord (m : Target) : targetIndexRecord :=
  let projectResourceId : String :=
    match m.Project with
    | some p => p.ResourceId
    | none => ""
  { Id := m.ResourceId, Name := m.Name, ProjectId := projectResourceId }

/-- Method `newTargetIndexRecordByRef`: projection of a reference to an index record. -/
def newTargetIndexRecordByRef (ref : Ref_Target) : targetIndexRecord :=
  let projectResourceId : String :=
    match ref.Project with
    | some p => p.ResourceId
    | none => ""
  { Id := ref.ResourceId, Name := ref.Name, ProjectId := projectResourceId }

/-- Method `targetId`: the bucket key of a target. -/
def targetId (m : Target) : String := m.ResourceId

/-- Method `targetIdByRef`: the bucket key a reference points at. -/
def targetIdByRef (m : Ref_Target) : String := m.ResourceId

/-- Call `memTxn.Insert(targetIndexTableName, r)` under `targetIndexSchema`: the
index "id" is the unique primary index, the index "name" has
`AllowMissing: false`, and a `StringFieldIndex` finds no value in an empty
string.  An object with the same `Id` is replaced. -/
def targetIndexInsert (r : targetIndexRecord) (tbl : List targetIndexRecord) :
    Result (List targetIndexRecord) :=
  if r.Id = "" then .err .memdbMissingPrimary
  else if r.Name = "" then .err .memdbMissingValue
  else .ok (kvPut targetIndexRecord.Id r tbl)

/-- Call `memTxn.Delete(targetIndexTableName, r)`: the object is looked up by its
primary index and removed from every index; `memdb.ErrNotFound` when it is
not in the table. -/
def targetIndexDelete (r : targetIndexRecord) (tbl : List targetIndexRecord) :
    Result (List targetIndexRecord) :=
  if r.Id = "" then .err .memdbMissingPrimary
  else
    match kvGet targetIndexRecord.Id r.Id tbl with
    | none => .err .memdbNotFound
    | some _ => .ok (kvDelete targetIndexRecord.Id r.Id tbl)

/-- Call `memTxn.First(targetIndexTableName, targetIndexIdIndexName, id)`: exact
match on the unique index "id" (`Lowercase: false`). -/
def targetIndexFirstId (id : String) (tbl : List targetIndexRecord) : Option targetIndexRecord :=
  kvGet targetIndexRecord.Id id tbl

/-- The key of an object in the index "name": `StringFieldIndex.FromObject` gives the
lowercased `Name` followed by NUL, and because the index is not unique go-memdb
appends the key of the primary index, the `Id` followed by NUL.  The key is given by
its code points, which compare and begin like its UTF-8 bytes. -/
def targetIndexNameKey (rune : Char → Char) (r : targetIndexRecord) : List Nat :=
  (ToLower rune r.Name).data.map Char.toNat ++ [0] ++ r.Id.data.map Char.toNat ++ [0]

/-- The byte string `StringFieldIndex.FromArgs` builds from the argument of a lookup in
the index "name": the lowercased argument followed by NUL. -/
def targetIndexNameArg (rune : Char → Char) (name : String) : List Nat :=
  (ToLower rune name).data.map Char.toNat ++ [0]

/-- Call `memTxn.First(targetIndexTableName, targetIndexNameIndexName, name)`: the
index "name" is not unique and has `Lowercase: true`, so the iterator seeks the byte
string of the argument and the first object whose key begins with it, the one with
the least key, is returned.  The index holds one key for each object of the table
(distinct objects have distinct keys as long as no identifier contains NUL). -/
def targetIndexFirstName (rune : Char → Char) (name : String)
    (tbl : List targetIndexRecord) : Option targetIndexRecord :=
  leastKey (targetIndexNameKey rune)
    (tbl.filter
      (fun r => bytesStartWith (targetIndexNameKey rune r) (targetIndexNameArg rune name)))

/-! ## Helpers of the package that the operations call -/

/-- Modelled from the spec: the helper `dbGet` is not in the sources at hand.
"Get(bucket, key) -> record | NotFound"; "EncodingFailure (stored bytes cannot be
decoded)". -/
def dbGet {α : Type} (b : List (String × Stored α)) (id : String) : Result α :=
  match kvGet Prod.fst id b with
  | none => .err .statusNotFound
  | some (_, .corrupt) => .err .unmarshal
  | some (_, .record v) => .ok v

/-- Modelled from the spec: the helper `dbPut` is not in the sources at hand.
"Put(bucket, key, record)": the record is encoded and written under the key;
`fault` is the failure of the encoding or of a size limit, if any, and bolt
refuses an empty key. -/
def dbPut {α : Type} (fault : Option Error) (b : List (String × Stored α)) (id : String)
    (msg : α) : Result (List (String × Stored α)) :=
  match fault with
  | some e => .err e
  | none =>
    if id = "" then .err .boltKeyRequired
    else .ok (kvPut Prod.fst (id, Stored.record msg) b)

/-- Modelled from the spec: the method `projectGet` is not in the sources at hand.
"resolve and load the parent entity referenced by the record - fails with NotFound
if the parent does not exist"; like `targetGet` it is a durable fetch by identifier. -/
def projectGet (tx : State) (ref : Ref_Project) : Result Project :=
  dbGet tx.db.project ref.ResourceId

/-- Modelled from the spec: the method `AddTarget` of `serverptypes.Project` is not
in the sources at hand.  "The back-reference collection is a set: adding an
already-present child is a no-op (detected, reported, skips the redundant parent
write)".  Returns the project and whether it changed. -/
def AddTarget (p : Project) (m : Target) : Project × Bool :=
  if m.ResourceId ∈ p.Targets then (p, false)
  else ({ p with Targets := p.Targets ++ [m.ResourceId] }, true)

/-- Modelled from the spec: the method `DeleteTargetRef` of `serverptypes.Project` is
not in the sources at hand.  "remove the child's identifier from the parent's
back-reference collection"; "deleting an absent reference is a no-op".  Returns the
project and whether it changed. -/
def DeleteTargetRef (p : Project) (ref : Ref_Target) : Project × Bool :=
  if ref.ResourceId ∈ p.Targets then
    ({ p with Targets := p.Targets.filter (fun i => !decide (i = ref.ResourceId)) }, true)
  else (p, false)

/-- Modelled from the spec: the method `projectPut` is not in the sources at hand.
"persist the parent through this same Put pathway (parent write is itself
durable+index, but without triggering a further cascade)": the durable write of the
project under its identifier, then the replace-on-conflict insert of its index
record.  `env.projectPut` is any failure met inside the parent write. -/
def projectPut (env : Env) (tx : State) (value : Project) : Result State :=
  match env.projectPut with
  | some e => .err e
  | none =>
    match dbPut none tx.db.project value.ResourceId value with
    | .err e => .err e
    | .panicked => .panicked
    | .ok b =>
      .ok { db := { tx.db with project := b },
            inmem := { tx.inmem with
              project := kvPut projectIndexRecord.Id
                { Id := value.ResourceId, Name := value.Name } tx.inmem.project } }

/-! ## The operations on open transactions -/

/-- Method `targetGet`: fetch from the bucket "target" under `targetIdByRef ref`.
The index transaction is not used. -/
def targetGet (tx : State) (ref : Ref_Target) : Result Target :=
  dbGet tx.db.target (targetIdByRef ref)

/-- Method `targetFind`: the resource id first, the name next, then `targetGet` on
the matched index record.  The parameter `rune` is the case table the name index
lowercases with. -/
def targetFind (rune : Char → Char) (tx : State) (m : Target) : Result Target :=
  let req := newTargetIndexRecord m
  let byId : Option targetIndexRecord :=
    if req.Id ≠ "" then targetIndexFirstId req.Id tx.inmem.target else none
  let found : Option targetIndexRecord :=
    match byId with
    | some r => some r
    | none =>
      if req.Name ≠ "" then targetIndexFirstName rune req.Name tx.inmem.target else none
  match found with
  | none => .err .statusNotFound
  | some r => targetGet tx { ResourceId := r.Id, Name := "", Project := none }

/-- Method `targetList`: scan of the index "id" from the empty string, one reference
(identifier and name) per index record. -/
def targetList (tx : State) : Result (List Ref_Target) :=
  .ok (tx.inmem.target.map
    (fun next => { ResourceId := next.Id, Name := next.Name, Project := none }))

/-- Method `targetIndexSet`: insert of the projection of `value`; the argument `id`
is not used. -/
def targetIndexSet (tbl : List targetIndexRecord) (_id : String) (value : Target) :
    Result (List targetIndexRecord) :=
  targetIndexInsert (newTargetIndexRecord value) tbl

/-- Method `targetPut`.  It returns the record as the caller sees it afterwards
(the identifier is assigned in place) and the outcome with the transactions.
The steps, in the order of the source: the trace call reads `value.Project.Basis`,
which dereferences `value.Project`; `projectGet` loads the parent; an empty
`ResourceId` is replaced by what `newResourceId` returns, before its error is tested;
`dbPut` writes the record under `targetId value`; `targetIndexSet` indexes it;
`AddTarget` adds it to the parent, which `projectPut` stores when it changed. -/
def targetPut (env : Env) (tx : State) (value : Target) : Target × Result State :=
  match value.Project with
  | none => (value, .panicked)
  | some pref =>
    match projectGet tx pref with
    | .panicked => (value, .panicked)
    | .err e => (value, .err e)
    | .ok p =>
      let assigned : Target × Option Error :=
        if value.ResourceId = "" then
          ({ value with ResourceId := env.newResourceId.1 }, env.newResourceId.2)
        else (value, none)
      match assigned with
      | (value, some e) => (value, .err e)
      | (value, none) =>
        let id := targetId value
        match dbPut env.dbPut tx.db.target id value with
        | .panicked => (value, .panicked)
        | .err e => (value, .err e)
        | .ok b =>
          match targetIndexSet tx.inmem.target id value with
          | .panicked => (value, .panicked)
          | .err e => (value, .err e)
          | .ok tbl =>
            let tx1 : State :=
              { db := { tx.db with target := b }, inmem := { tx.inmem with target := tbl } }
            match AddTarget p value with
            | (p1, true) => (value, projectPut env tx1 p1)
            | (_, false) => (value, .ok tx1)

/-- Method `targetDelete`.  The steps, in the order of the source: the parent is
loaded by `projectGet` on a reference built from `ref.Project.ResourceId`, which
dereferences `ref.Project`; the key `targetIdByRef ref` is deleted from the bucket
(bolt returns nil also when the key is absent); the index record is deleted;
`DeleteTargetRef` removes the reference from the parent, which `projectPut` stores
when it changed. -/
def targetDelete (env : Env) (tx : State) (ref : Ref_Target) : Result State :=
  match ref.Project with
  | none => .panicked
  | some rp =>
    match projectGet tx { ResourceId := rp.ResourceId, Name := "", Basis := none } with
    | .panicked => .panicked
    | .err e => .err e
    | .ok p =>
      let b := kvDelete Prod.fst (targetIdByRef ref) tx.db.target
      match targetIndexDelete (newTargetIndexRecordByRef ref) tx.inmem.target with
      | .panicked => .panicked
      | .err e => .err e
      | .ok tbl =>
        let tx1 : State :=
          { db := { tx.db with target := b }, inmem := { tx.inmem with target := tbl } }
        match DeleteTargetRef p ref with
        | (p1, true) => projectPut env tx1 p1
        | (_, false) => .ok tx1

/-- The loop of `targetIndexInit`: `bucket.ForEach` visits the entries in key order;
the first entry that does not decode or cannot be indexed ends it with the error. -/
def targetIndexInitEach :
    List (String × Stored Target) → List targetIndexRecord → Result (List targetIndexRecord)
  | [], tbl => .ok tbl
  | (_, .corrupt) :: _, _ => .err .unmarshal
  | (k, .record value) :: rest, tbl =>
    match targetIndexSet tbl k value with
    | .panicked => .panicked
    | .err e => .err e
    | .ok tbl1 => targetIndexInitEach rest tbl1

/-- Method `targetIndexInit`: the index rebuild over the bucket "target". -/
def targetIndexInit (tx : State) : Result State :=
  match targetIndexInitEach tx.db.target tx.inmem.target with
  | .panicked => .panicked
  | .err e => .err e
  | .ok tbl => .ok { tx with inmem := { tx.inmem with target := tbl } }

/-! ## The operations of `State` -/

/-- Method `TargetFind`: `targetFind` under a read transaction of each store. -/
def TargetFind (rune : Char → Char) (s : State) (m : Target) : Result Target :=
  targetFind rune s m

/-- Method `TargetPut`: `targetPut` inside `db.Update`; the index transaction is
committed when `Update` returned nil and aborted otherwise.  The result is the
state afterwards, the record handed in as the caller sees it afterwards, and the
error. -/
def TargetPut (env : Env) (s : State) (target : Target) : State × Target × Result Unit :=
  match targetPut env s target with
  | (target1, .panicked) => (s, target1, .panicked)
  | (target1, .err e) => (s, target1, .err e)
  | (target1, .ok tx) =>
    match env.commit with
    | some e => (s, target1, .err e)
    | none => (tx, target1, .ok ())

/-- Method `TargetDelete`: `targetDelete` inside `db.Update`; the index transaction
is committed when `Update` returned nil and aborted otherwise. -/
def TargetDelete (env : Env) (s : State) (ref : Ref_Target) : State × Result Unit :=
  match targetDelete env s ref with
  | .panicked => (s, .panicked)
  | .err e => (s, .err e)
  | .ok tx =>
    match env.commit with
    | some e => (s, .err e)
    | none => (tx, .ok ())

/-- Method `TargetGet`: `targetGet` under a read transaction of each store. -/
def TargetGet (s : State) (ref : Ref_Target) : Result Target := targetGet s ref

/-- Method `TargetList`: `targetList` under a read transaction of the index. -/
def TargetList (s : State) : Result (List Ref_Target) := targetList s

/-! ## Runs of write operations -/

/-- One write call with what it meets. -/
inductive Op where
  | put (env : Env) (target : Target)
  | delete (env : Env) (ref : Ref_Target)
deriving DecidableEq, Repr

/-- State after one write call. -/
def step (s : State) : Op → State
  | .put env target => (TargetPut env s target).1
  | .delete env ref => (TargetDelete env s ref).1

/-- State after a sequence of write calls. -/
def run (s : State) (ops : List Op) : State := ops.foldl step s

/-- The states after each call of a sequence, in order. -/
def states (s : State) : List Op → List State
  | [] => []
  | op :: ops => step s op :: states (step s op) ops

/-- The identifiers `TargetList` returns. -/
def listedIds (s : State) : List String :=
  match TargetList s with
  | .ok refs => refs.map Ref_Target.ResourceId
  | _ => []

/-- The keys present in the bucket "target". -/
def bucketKeys (s : State) : List String := s.db.target.map Prod.fst

/-- An environment in which nothing fails and the generator returns `id`. -/
def Env.healthy (id : String) : Env :=
  { newResourceId := (id, none), dbPut := none, projectPut := none, commit := none }

/-! ## Relations between the index and the bucket -/

/-- The identifiers `TargetList` returns are exactly the keys of the bucket "target". -/
def ListMatchesBucket (s : State) : Prop :=
  ∀ k : String, k ∈ listedIds s ↔ k ∈ bucketKeys s

/-- The entries of a collection are in strictly increasing key order, as bolt and
go-memdb keep them. -/
def KeySorted {α : Type} (key : α → String) (l : List α) : Prop :=
  l.Pairwise (fun a b => keyLess (key a) (key b) = true)

/-- The bucket "target" is laid out as `targetPut` writes it: every record is filed
under its own `ResourceId`. -/
def KeyedByResourceId (b : List (String × Stored Target)) : Prop :=
  ∀ e ∈ b, ∀ t, e.2 = Stored.record t → t.ResourceId = e.1

/-- The index record of a bucket entry: the projection of the record it decodes to. -/
def entryRecord (e : String × Stored Target) : targetIndexRecord :=
  match e.2 with
  | .record t => newTargetIndexRecord t
  | .corrupt => { Id := e.1, Name := "", ProjectId := "" }

/-- A bucket entry the rebuild can index: it decodes to a record filed under its own
`ResourceId` that has an identifier and a name. -/
def IndexableEntry (e : String × Stored Target) : Prop :=
  ∃ t, e.2 = Stored.record t ∧ t.ResourceId = e.1 ∧ t.ResourceId ≠ "" ∧ t.Name ≠ ""

/-- A freshly rebuilt state: the bucket "target" is in key order and keyed by
`ResourceId`, and the table "target-index" is what `targetIndexInit` builds from the
bucket in an empty table. -/
def FreshlyRebuilt (s : State) : Prop :=
  KeySorted Prod.fst s.db.target ∧ KeyedByResourceId s.db.target ∧
  targetIndexInit { s with inmem := { s.inmem with target := [] } } = Result.ok s

/-- The index agrees with the bucket: no index record has an empty `Id` (go-memdb
admits none), every index record is the projection of the record stored under its
`Id`, and every key of the bucket has an index record. -/
def Consistent (s : State) : Prop :=
  (∀ r ∈ s.inmem.target, r.Id ≠ "") ∧
  (∀ r ∈ s.inmem.target,
    ∃ t, dbGet s.db.target r.Id = Result.ok t ∧ newTargetIndexRecord t = r) ∧
  (∀ e ∈ s.db.target, ∃ r ∈ s.inmem.target, r.Id = e.1)

/-- The bucket "project" is laid out as the parent write files it: the record read
under a key has that key as its `ResourceId`. -/
def ProjectsKeyed (s : State) : Prop :=
  ∀ k p, dbGet s.db.project k = Result.ok p → p.ResourceId = k

/-- The parent back-reference invariant: every record of the bucket "target" that has
a `Project` reference refers to a stored project whose `Targets` contain the
`ResourceId` of the record. -/
def BackReferenced (s : State) : Prop :=
  ∀ e ∈ s.db.target, ∀ t pref, e.2 = Stored.record t → t.Project = some pref →
    ∃ p, projectGet s pref = Result.ok p ∧ t.ResourceId ∈ p.Targets

/-- The string contains no NUL character. -/
def NulFree (s : String) : Prop := ∀ c ∈ s.data, c.toNat ≠ 0

/-- Whether a string contains NUL can be computed. -/
instance NulFree.decidable (s : String) : Decidable (NulFree s) :=
  inferInstanceAs (Decidable (∀ c ∈ s.data, c.toNat ≠ 0))

/-- The project "proj-A" with no targets. -/
def scenarioProject : Project :=
  { ResourceId := "proj-A", Name := "A", Targets := [], Payload := "" }

/-- A reference to "proj-A". -/
def scenarioProjectRef : Ref_Project := { ResourceId := "proj-A", Name := "", Basis := none }

/-- A store holding "proj-A" and no target. -/
def scenarioState : State :=
  { db := { target := [], project := [("proj-A", Stored.record scenarioProject)] },
    inmem := { target := [], project := [{ Id := "proj-A", Name := "A" }] } }

/-- The target "web-1" of "proj-A", not yet identified. -/
def scenarioTarget : Target :=
  { ResourceId := "", Name := "web-1", Project := some scenarioProjectRef, Payload := "vm" }

/-- The store after "web-1" was put and named "tgt-001". -/
def scenarioStored : State :=
  (TargetPut (Env.healthy "tgt-001") scenarioState scenarioTarget).1

/-- A reference to the stored target "tgt-001" that names its project. -/
def scenarioTargetRef : Ref_Target :=
  { ResourceId := "tgt-001", Name := "", Project := some scenarioProjectRef }

/-- Two calls on the store holding "tgt-001": a second target is put, then "tgt-001"
is deleted. -/
def scenarioCalls : List Op :=
  [Op.put (Env.healthy "tgt-002") { scenarioTarget with Name := "web-2" },
   Op.delete (Env.healthy "") scenarioTargetRef]

/-- A store with the projects "proj-A" and "proj-B" and the target "tgt-001" of
"proj-A", listed in the `Targets` of "proj-A". -/
def scenarioTwoProjects : State :=
  { db :=
      { target :=
          [("tgt-001", Stored.record
            { ResourceId := "tgt-001", Name := "web-1", Project := some scenarioProjectRef,
              Payload := "vm" })],
        project :=
          [("proj-A", Stored.record { scenarioProject with Targets := ["tgt-001"] }),
           ("proj-B", Stored.record
            { ResourceId := "proj-B", Name := "B", Targets := [], Payload := "" })] },
    inmem :=
      { target := [{ Id := "tgt-001", Name := "web-1", ProjectId := "proj-A" }],
        project := [{ Id := "proj-A", Name := "A" }, { Id := "proj-B", Name := "B" }] } }

/-- A reference to "tgt-001" that names "proj-B" as its project. -/
def scenarioForeignRef : Ref_Target :=
  { ResourceId := "tgt-001", Name := "",
    Project := some { ResourceId := "proj-B", Name := "", Basis := none } }

/-- A fragment of the case table of package unicode, used in the instances: the letters
A to Z and the capital letters of Latin-1 (U+00C0 to U+00DE without U+00D7) are mapped
to their lowercase forms, 32 code points up; every other rune is kept. -/
def latin1ToLower (c : Char) : Char :=
  if (65 ≤ c.toNat ∧ c.toNat ≤ 90) ∨ (192 ≤ c.toNat ∧ c.toNat ≤ 222 ∧ c.toNat ≠ 215) then
    Char.ofNat (c.toNat + 32)
  else c

theorem kvGet_nil {α : Type} (key : α → String) (k : String) :
    kvGet key k ([] : List α) = none := rfl

theorem kvGet_cons {α : Type} (key : α → String) (k : String) (y : α) (ys : List α) :
    kvGet key k (y :: ys) = if key y = k then some y else kvGet key k ys := by
  by_cases h : key y = k <;> simp [kvGet, List.find?_cons, h]

theorem kvDelete_cons {α : Type} (key : α → String) (j : String) (y : α) (ys : List α) :
    kvDelete key j (y :: ys) = if key y = j then kvDelete key j ys else y :: kvDelete key j ys := by
  by_cases h : key y = j <;> simp [kvDelete, List.filter_cons, h]

theorem kvGet_kvPut {α : Type} (key : α → String) (x : α) (k : String) (l : List α) :
    kvGet key k (kvPut key x l) = if key x = k then some x else kvGet key k l := by
  induction l with
  | nil => simp [kvPut, kvGet_cons, kvGet_nil]
  | cons y ys ih =>
    unfold kvPut
    by_cases h1 : keyLess (key x) (key y) = true
    · rw [if_pos h1, kvGet_cons]
    · rw [if_neg h1]
      by_cases h2 : key x = key y
      · rw [if_pos h2, kvGet_cons, kvGet_cons]
        by_cases hx : key x = k
        · simp [hx]
        · have hy : ¬ key y = k := fun h => hx (h2.trans h)
          simp [hx, hy]
      · rw [if_neg h2, kvGet_cons, kvGet_cons, ih]
        by_cases hy : key y = k
        · have hx : ¬ key x = k := fun h => h2 (h.trans hy.symm)
          simp [hx, hy]
        · simp [hy]

theorem kvGet_kvDelete {α : Type} (key : α → String) (j k : String) (l : List α) :
    kvGet key k (kvDelete key j l) = if k = j then none else kvGet key k l := by
  induction l with
  | nil => simp [kvDelete, kvGet]
  | cons y ys ih =>
    rw [kvDelete_cons, kvGet_cons]
    by_cases hy : key y = j
    · rw [if_pos hy, ih]
      by_cases hk : k = j
      · simp [hk]
      · have hyk : ¬ key y = k := fun h => hk (h.symm.trans hy)
        simp [hk, hyk]
    · rw [if_neg hy, kvGet_cons, ih]
      by_cases hyk : key y = k
      · have hk : ¬ k = j := fun h => hy (hyk.trans h)
        simp [hyk, hk]
      · simp [hyk]

/-! ## What a completed write did -/

theorem projectPut_ok {env : Env} {tx tx1 : State} {p : Project}
    (h : projectPut env tx p = Result.ok tx1) :
    p.ResourceId ≠ "" ∧ tx1.db.target = tx.db.target ∧ tx1.inmem.target = tx.inmem.target ∧
    tx1.db.project = kvPut Prod.fst (p.ResourceId, Stored.record p) tx.db.project ∧
    tx1.inmem.project =
      kvPut projectIndexRecord.Id { Id := p.ResourceId, Name := p.Name } tx.inmem.project := by
  unfold projectPut at h
  cases hf : env.projectPut with
  | some e => simp [hf] at h
  | none =>
    by_cases hid : p.ResourceId = ""
    · simp [hf, dbPut, hid] at h
    · simp [hf, dbPut, hid] at h
      subst h
      exact ⟨hid, rfl, rfl, rfl, rfl⟩

theorem dbPut_ok {α : Type} {fault : Option Error} {b b1 : List (String × Stored α)}
    {id : String} {msg : α} (h : dbPut fault b id msg = Result.ok b1) :
    fault = none ∧ id ≠ "" ∧ b1 = kvPut Prod.fst (id, Stored.record msg) b := by
  unfold dbPut at h
  cases fault with
  | some e => simp at h
  | none =>
    by_cases hid : id = ""
    · simp [hid] at h
    · simp [hid] at h
      exact ⟨rfl, hid, h.symm⟩

theorem targetIndexInsert_ok {r : targetIndexRecord} {tbl tbl1 : List targetIndexRecord}
    (h : targetIndexInsert r tbl = Result.ok tbl1) :
    r.Id ≠ "" ∧ r.Name ≠ "" ∧ tbl1 = kvPut targetIndexRecord.Id r tbl := by
  unfold targetIndexInsert at h
  by_cases hid : r.Id = ""
  · simp [hid] at h
  · by_cases hn : r.Name = ""
    · simp [hid, hn] at h
    · simp [hid, hn] at h
      exact ⟨hid, hn, h.symm⟩

theorem AddTarget_true {p p1 : Project} {m : Target} (h : AddTarget p m = (p1, true)) :
    m.ResourceId ∉ p.Targets ∧ p1 = { p with Targets := p.Targets ++ [m.ResourceId] } := by
  unfold AddTarget at h
  by_cases hm : m.ResourceId ∈ p.Targets
  · simp [hm] at h
  · simp [hm] at h
    exact ⟨hm, h.symm⟩

theorem AddTarget_false {p p1 : Project} {m : Target} (h : AddTarget p m = (p1, false)) :
    m.ResourceId ∈ p.Targets := by
  unfold AddTarget at h
  by_cases hm : m.ResourceId ∈ p.Targets
  · exact hm
  · simp [hm] at h

theorem targetPut_ok {env : Env} {tx tx1 : State} {value v1 : Target}
    (h : targetPut env tx value = (v1, Result.ok tx1)) :
    ∃ pref p, value.Project = some pref ∧ projectGet tx pref = Result.ok p ∧
      v1 = (if value.ResourceId = "" then { value with ResourceId := env.newResourceId.1 }
            else value) ∧
      v1.ResourceId ≠ "" ∧ v1.Name ≠ "" ∧
      tx1.db.target = kvPut Prod.fst (v1.ResourceId, Stored.record v1) tx.db.target ∧
      tx1.inmem.target =
        kvPut targetIndexRecord.Id (newTargetIndexRecord v1) tx.inmem.target ∧
      ((v1.ResourceId ∈ p.Targets ∧ tx1.db.project = tx.db.project ∧
          tx1.inmem.project = tx.inmem.project) ∨
       (v1.ResourceId ∉ p.Targets ∧ p.ResourceId ≠ "" ∧
          tx1.db.project = kvPut Prod.fst
            (p.ResourceId, Stored.record { p with Targets := p.Targets ++ [v1.ResourceId] })
            tx.db.project ∧
          tx1.inmem.project =
            kvPut projectIndexRecord.Id { Id := p.ResourceId, Name := p.Name }
              tx.inmem.project)) := by
  unfold targetPut at h
  cases hproj : value.Project with
  | none => simp [hproj] at h
  | some pref =>
    cases hget : projectGet tx pref with
    | panicked => simp [hproj, hget] at h
    | err e => simp [hproj, hget] at h
    | ok p =>
      refine ⟨pref, p, rfl, hget, ?_⟩
      simp only [hproj, hget] at h
      split at h
      · simp at h
      · rename_i w hw
        split at h
        · simp at h
        · simp at h
        · rename_i b hb
          split at h
          · simp at h
          · simp at h
          · rename_i tbl htbl
            split at h
            · rename_i p1 hadd
              obtain ⟨hnot, hp1⟩ := AddTarget_true hadd
              obtain ⟨_, hkey, hb1⟩ := dbPut_ok hb
              obtain ⟨_, hname, htbl1⟩ := targetIndexInsert_ok htbl
              simp only [Prod.mk.injEq] at h
              obtain ⟨hv, hput⟩ := h
              obtain ⟨hpid, hdt, hit, hdp, hip⟩ := projectPut_ok hput
              have hw1 : w = (if value.ResourceId = "" then
                  { value with ResourceId := env.newResourceId.1 } else value) := by
                by_cases he : value.ResourceId = ""
                · rw [if_pos he] at hw ⊢
                  simp only [Prod.mk.injEq] at hw
                  rw [← hw.1]
                  simp [hproj]
                · rw [if_neg he] at hw ⊢
                  simp only [Prod.mk.injEq] at hw
                  exact hw.1.symm
              subst hv
              subst hp1
              refine ⟨?_, hkey, hname, ?_, ?_, Or.inr ⟨hnot, hpid, hdp, hip⟩⟩
              · rw [hproj] at hw1; exact hw1
              · rw [hdt, hb1]; try rfl
              · rw [hit, htbl1]; try rfl
            · rename_i p1 hadd
              have hin := AddTarget_false hadd
              obtain ⟨_, hkey, hb1⟩ := dbPut_ok hb
              obtain ⟨_, hname, htbl1⟩ := targetIndexInsert_ok htbl
              simp only [Prod.mk.injEq, Result.ok.injEq] at h
              obtain ⟨hv, htx⟩ := h
              have hw1 : w = (if value.ResourceId = "" then
                  { value with ResourceId := env.newResourceId.1 } else value) := by
                by_cases he : value.ResourceId = ""
                · rw [if_pos he] at hw ⊢
                  simp only [Prod.mk.injEq] at hw
                  rw [← hw.1]
                  simp [hproj]
                · rw [if_neg he] at hw ⊢
                  simp only [Prod.mk.injEq] at hw
                  exact hw.1.symm
              subst hv
              subst htx
              refine ⟨?_, hkey, hname, ?_, ?_, Or.inl ⟨hin, rfl, rfl⟩⟩
              · rw [hproj] at hw1; exact hw1
              · simp only; rw [hb1]; try rfl
              · simp only; rw [htbl1]; try rfl

theorem targetIndexDelete_ok {r : targetIndexRecord} {tbl tbl1 : List targetIndexRecord}
    (h : targetIndexDelete r tbl = Result.ok tbl1) :
    r.Id ≠ "" ∧ (∃ x, kvGet targetIndexRecord.Id r.Id tbl = some x) ∧
    tbl1 = kvDelete targetIndexRecord.Id r.Id tbl := by
  unfold targetIndexDelete at h
  by_cases hid : r.Id = ""
  · simp [hid] at h
  · cases hg : kvGet targetIndexRecord.Id r.Id tbl with
    | none => simp [hid, hg] at h
    | some x =>
      simp [hid, hg] at h
      exact ⟨hid, ⟨x, rfl⟩, h.symm⟩

theorem DeleteTargetRef_true {p p1 : Project} {ref : Ref_Target}
    (h : DeleteTargetRef p ref = (p1, true)) :
    ref.ResourceId ∈ p.Targets ∧
    p1 = { p with Targets := p.Targets.filter (fun i => !decide (i = ref.ResourceId)) } := by
  unfold DeleteTargetRef at h
  by_cases hm : ref.ResourceId ∈ p.Targets
  · simp [hm] at h
    exact ⟨hm, h.symm⟩
  · simp [hm] at h

theorem DeleteTargetRef_false {p p1 : Project} {ref : Ref_Target}
    (h : DeleteTargetRef p ref = (p1, false)) : ref.ResourceId ∉ p.Targets := by
  unfold DeleteTargetRef at h
  by_cases hm : ref.ResourceId ∈ p.Targets
  · simp [hm] at h
  · exact hm

theorem targetDelete_ok {env : Env} {tx tx1 : State} {ref : Ref_Target}
    (h : targetDelete env tx ref = Result.ok tx1) :
    ∃ rp p, ref.Project = some rp ∧
      projectGet tx { ResourceId := rp.ResourceId, Name := "", Basis := none } = Result.ok p ∧
      ref.ResourceId ≠ "" ∧
      (∃ x, kvGet targetIndexRecord.Id ref.ResourceId tx.inmem.target = some x) ∧
      tx1.db.target = kvDelete Prod.fst ref.ResourceId tx.db.target ∧
      tx1.inmem.target = kvDelete targetIndexRecord.Id ref.ResourceId tx.inmem.target ∧
      ((ref.ResourceId ∉ p.Targets ∧ tx1.db.project = tx.db.project ∧
          tx1.inmem.project = tx.inmem.project) ∨
       (ref.ResourceId ∈ p.Targets ∧ p.ResourceId ≠ "" ∧
          tx1.db.project = kvPut Prod.fst
            (p.ResourceId, Stored.record
              { p with Targets := p.Targets.filter (fun i => !decide (i = ref.ResourceId)) })
            tx.db.project ∧
          tx1.inmem.project =
            kvPut projectIndexRecord.Id { Id := p.ResourceId, Name := p.Name }
              tx.inmem.project)) := by
  unfold targetDelete at h
  cases hproj : ref.Project with
  | none => simp [hproj] at h
  | some rp =>
    simp only [hproj] at h
    cases hget : projectGet tx { ResourceId := rp.ResourceId, Name := "", Basis := none } with
    | panicked => simp [hget] at h
    | err e => simp [hget] at h
    | ok p =>
      refine ⟨rp, p, rfl, hget, ?_⟩
      simp only [hget] at h
      split at h
      · simp at h
      · simp at h
      · rename_i tbl htbl
        obtain ⟨hid, hex, htbl1⟩ := targetIndexDelete_ok htbl
        split at h
        · rename_i p1 hdel
          obtain ⟨hin, hp1⟩ := DeleteTargetRef_true hdel
          obtain ⟨hpid, hdt, hit, hdp, hip⟩ := projectPut_ok h
          subst hp1
          refine ⟨hid, hex, ?_, ?_, Or.inr ⟨hin, hpid, hdp, hip⟩⟩
          · rw [hdt]; rfl
          · rw [hit, htbl1]; rfl
        · rename_i p1 hdel
          have hnot := DeleteTargetRef_false hdel
          simp only [Result.ok.injEq] at h
          subst h
          refine ⟨hid, hex, rfl, ?_, Or.inl ⟨hnot, rfl, rfl⟩⟩
          simp only; rw [htbl1]; rfl

theorem TargetPut_ok {env : Env} {s : State} {target : Target}
    (h : (TargetPut env s target).2.2 = Result.ok ()) :
    env.commit = none ∧
    targetPut env s target = ((TargetPut env s target).2.1, Result.ok (TargetPut env s target).1) := by
  unfold TargetPut at h ⊢
  rcases hp : targetPut env s target with ⟨t1, r⟩
  cases r with
  | panicked => simp [hp] at h
  | err e => simp [hp] at h
  | ok tx =>
    cases hc : env.commit with
    | some e => simp [hp, hc] at h
    | none => simp

theorem TargetPut_not_ok {env : Env} {s : State} {target : Target}
    (h : (TargetPut env s target).2.2 ≠ Result.ok ()) : (TargetPut env s target).1 = s := by
  unfold TargetPut at h ⊢
  rcases hp : targetPut env s target with ⟨t1, r⟩
  cases r with
  | panicked => simp
  | err e => simp
  | ok tx =>
    cases hc : env.commit with
    | some e => simp
    | none => simp [hp, hc] at h

theorem TargetDelete_ok {env : Env} {s : State} {ref : Ref_Target}
    (h : (TargetDelete env s ref).2 = Result.ok ()) :
    env.commit = none ∧ targetDelete env s ref = Result.ok (TargetDelete env s ref).1 := by
  unfold TargetDelete at h ⊢
  cases hp : targetDelete env s ref with
  | panicked => simp [hp] at h
  | err e => simp [hp] at h
  | ok tx =>
    cases hc : env.commit with
    | some e => simp [hp, hc] at h
    | none => simp

theorem TargetDelete_not_ok {env : Env} {s : State} {ref : Ref_Target}
    (h : (TargetDelete env s ref).2 ≠ Result.ok ()) : (TargetDelete env s ref).1 = s := by
  unfold TargetDelete at h ⊢
  cases hp : targetDelete env s ref with
  | panicked => simp
  | err e => simp
  | ok tx =>
    cases hc : env.commit with
    | some e => simp
    | none => simp [hp, hc] at h

theorem kvGet_kvPut_self {α : Type} (key : α → String) (x : α) (l : List α) :
    kvGet key (key x) (kvPut key x l) = some x := by
  simp [kvGet_kvPut]

theorem dbGet_kvPut_self {α : Type} (id : String) (v : α) (b : List (String × Stored α)) :
    dbGet (kvPut Prod.fst (id, Stored.record v) b) id = Result.ok v := by
  have h := kvGet_kvPut_self Prod.fst (id, Stored.record v) b
  simp only at h
  simp [dbGet, h]

/-! ## Keys after a write or a removal -/

theorem mem_keys_kvPut {α : Type} (key : α → String) (x : α) (k : String) (l : List α) :
    k ∈ (kvPut key x l).map key ↔ k = key x ∨ k ∈ l.map key := by
  induction l with
  | nil => simp [kvPut]
  | cons y ys ih =>
    unfold kvPut
    by_cases h1 : keyLess (key x) (key y) = true
    · rw [if_pos h1]; simp
    · rw [if_neg h1]
      by_cases h2 : key x = key y
      · rw [if_pos h2]
        simp only [List.map_cons, List.mem_cons, h2]
        tauto
      · rw [if_neg h2]
        simp only [List.map_cons, List.mem_cons, ih]
        tauto

theorem mem_keys_kvDelete {α : Type} (key : α → String) (j k : String) (l : List α) :
    k ∈ (kvDelete key j l).map key ↔ k ≠ j ∧ k ∈ l.map key := by
  simp only [kvDelete, List.mem_map, List.mem_filter]
  constructor
  · rintro ⟨a, ⟨ha, hne⟩, rfl⟩
    exact ⟨by simpa using hne, a, ha, rfl⟩
  · rintro ⟨hne, a, ha, rfl⟩
    exact ⟨a, ⟨ha, by simpa using hne⟩, rfl⟩

theorem listedIds_eq (s : State) : listedIds s = s.inmem.target.map targetIndexRecord.Id := by
  simp [listedIds, TargetList, targetList, List.map_map, Function.comp_def]

theorem states_mem_run (s : State) (ops : List Op) (t : State) (h : t ∈ states s ops) :
    ∃ done, ∃ op, t = step (run s done) op := by
  induction ops generalizing s with
  | nil => simp [states] at h
  | cons op ops ih =>
    simp only [states, List.mem_cons] at h
    rcases h with h | h
    · exact ⟨[], op, by simpa [run] using h⟩
    · obtain ⟨done, op1, hd⟩ := ih (step s op) h
      exact ⟨op :: done, op1, by simpa [run] using hd⟩

theorem ListMatchesBucket_step (s : State) (op : Op) (h : ListMatchesBucket s) :
    ListMatchesBucket (step s op) := by
  cases op with
  | put env target =>
    simp only [step]
    by_cases hok : (TargetPut env s target).2.2 = Result.ok ()
    · obtain ⟨_, hput⟩ := TargetPut_ok hok
      obtain ⟨pref, p, _, _, _, _, _, hb, hi, _⟩ := targetPut_ok hput
      intro k
      rw [listedIds_eq, bucketKeys, hb, hi, mem_keys_kvPut, mem_keys_kvPut]
      have hk := h k
      rw [listedIds_eq, bucketKeys] at hk
      simp only [newTargetIndexRecord]
      rw [hk]
    · rw [TargetPut_not_ok hok]; exact h
  | delete env ref =>
    simp only [step]
    by_cases hok : (TargetDelete env s ref).2 = Result.ok ()
    · obtain ⟨_, hdel⟩ := TargetDelete_ok hok
      obtain ⟨rp, p, _, _, _, _, hb, hi, _⟩ := targetDelete_ok hdel
      intro k
      rw [listedIds_eq, bucketKeys, hb, hi, mem_keys_kvDelete, mem_keys_kvDelete]
      have hk := h k
      rw [listedIds_eq, bucketKeys] at hk
      rw [hk]
    · rw [TargetDelete_not_ok hok]; exact h

theorem ListMatchesBucket_run (s : State) (ops : List Op) (h : ListMatchesBucket s) :
    ListMatchesBucket (run s ops) := by
  induction ops generalizing s with
  | nil => simpa [run] using h
  | cons op ops ih =>
    have := ih (step s op) (ListMatchesBucket_step s op h)
    simpa [run] using this

/-! ## The order of keys -/

theorem bytesLess_irrefl (a : List Nat) : bytesLess a a = false := by
  induction a with
  | nil => rfl
  | cons x xs ih => simp [bytesLess, ih]

theorem bytesLess_trans : ∀ (a b c : List Nat),
    bytesLess a b = true → bytesLess b c = true → bytesLess a c = true
  | [], [], _, h, _ => by simp [bytesLess] at h
  | [], _ :: _, [], _, h => by simp [bytesLess] at h
  | [], _ :: _, _ :: _, _, _ => by simp [bytesLess]
  | _ :: _, [], _, h, _ => by simp [bytesLess] at h
  | _ :: _, _ :: _, [], _, h => by simp [bytesLess] at h
  | x :: xs, y :: ys, z :: zs, h1, h2 => by
    simp only [bytesLess, Bool.or_eq_true, Bool.and_eq_true, decide_eq_true_eq] at h1 h2 ⊢
    rcases h1 with h1 | ⟨h1, h1r⟩
    · rcases h2 with h2 | ⟨h2, _⟩
      · exact Or.inl (lt_trans h1 h2)
      · exact Or.inl (h2 ▸ h1)
    · rcases h2 with h2 | ⟨h2, h2r⟩
      · exact Or.inl (h1 ▸ h2)
      · exact Or.inr ⟨h1.trans h2, bytesLess_trans xs ys zs h1r h2r⟩

theorem bytesLess_total : ∀ (a b : List Nat),
    bytesLess a b = false → a ≠ b → bytesLess b a = true
  | [], [], _, h => absurd rfl h
  | [], _ :: _, h, _ => by simp [bytesLess] at h
  | _ :: _, [], _, _ => by simp [bytesLess]
  | x :: xs, y :: ys, h1, h2 => by
    simp only [bytesLess, Bool.or_eq_false_iff, Bool.and_eq_false_iff, decide_eq_false_iff_not,
      Bool.or_eq_true, Bool.and_eq_true, decide_eq_true_eq] at h1 ⊢
    obtain ⟨hlt, hrest⟩ := h1
    by_cases hxy : x = y
    · subst hxy
      rcases hrest with hrest | hrest
      · exact absurd rfl hrest
      · have hne : xs ≠ ys := fun h => h2 (by rw [h])
        exact Or.inr ⟨rfl, bytesLess_total xs ys hrest hne⟩
    · exact Or.inl (by omega)

theorem keyLess_irrefl (a : String) : keyLess a a = false := bytesLess_irrefl _

theorem keyLess_trans {a b c : String} (h1 : keyLess a b = true) (h2 : keyLess b c = true) :
    keyLess a c = true := bytesLess_trans _ _ _ h1 h2

theorem keyLess_ne {a b : String} (h : keyLess a b = true) : a ≠ b := by
  intro hab
  rw [hab, keyLess_irrefl] at h
  exact Bool.false_ne_true h

theorem keyLess_asymm {a b : String} (h : keyLess a b = true) : keyLess b a = false := by
  cases hba : keyLess b a with
  | false => rfl
  | true =>
    have := keyLess_trans h hba
    rw [keyLess_irrefl] at this
    exact absurd this Bool.false_ne_true

theorem keyLess_total {a b : String} (h : keyLess a b = false) (hne : a ≠ b) :
    keyLess b a = true := by
  apply bytesLess_total _ _ h
  intro hmap
  apply hne
  apply String.ext
  have hinj : Function.Injective Char.toNat := by
    intro x y hxy
    have := congrArg Char.ofNat hxy
    simpa using this
  exact List.map_injective_iff.mpr hinj hmap

/-! ## Collections in key order -/

theorem mem_kvPut {α : Type} (key : α → String) (x a : α) (l : List α)
    (h : a ∈ kvPut key x l) : a = x ∨ a ∈ l := by
  induction l with
  | nil => simpa [kvPut] using h
  | cons y ys ih =>
    unfold kvPut at h
    by_cases h1 : keyLess (key x) (key y) = true
    · rw [if_pos h1] at h
      simpa using h
    · rw [if_neg h1] at h
      by_cases h2 : key x = key y
      · rw [if_pos h2] at h
        simp only [List.mem_cons] at h ⊢
        tauto
      · rw [if_neg h2] at h
        simp only [List.mem_cons] at h ⊢
        rcases h with h | h
        · tauto
        · have := ih h
          tauto

theorem KeySorted_kvPut {α : Type} (key : α → String) (x : α) (l : List α)
    (h : KeySorted key l) : KeySorted key (kvPut key x l) := by
  induction l with
  | nil => simp [kvPut, KeySorted]
  | cons y ys ih =>
    unfold KeySorted at h ih ⊢
    rw [List.pairwise_cons] at h
    unfold kvPut
    by_cases h1 : keyLess (key x) (key y) = true
    · rw [if_pos h1, List.pairwise_cons]
      refine ⟨?_, List.pairwise_cons.mpr h⟩
      intro a ha
      rcases List.mem_cons.mp ha with ha | ha
      · rw [ha]; exact h1
      · exact keyLess_trans h1 (h.1 a ha)
    · rw [if_neg h1]
      by_cases h2 : key x = key y
      · rw [if_pos h2, List.pairwise_cons]
        refine ⟨?_, h.2⟩
        intro a ha
        rw [h2]
        exact h.1 a ha
      · rw [if_neg h2, List.pairwise_cons]
        refine ⟨?_, ih h.2⟩
        intro a ha
        rcases mem_kvPut key x a ys ha with ha | ha
        · rw [ha]
          exact keyLess_total (by simpa using h1) h2
        · exact h.1 a ha

theorem KeySorted_kvDelete {α : Type} (key : α → String) (k : String) (l : List α)
    (h : KeySorted key l) : KeySorted key (kvDelete key k l) :=
  List.Pairwise.filter _ h

theorem kvPut_append {α : Type} (key : α → String) (x : α) (l : List α)
    (h : ∀ a ∈ l, keyLess (key a) (key x) = true) : kvPut key x l = l ++ [x] := by
  induction l with
  | nil => rfl
  | cons y ys ih =>
    have hy := h y (List.mem_cons_self _ _)
    have h1 : ¬ keyLess (key x) (key y) = true := by
      rw [keyLess_asymm hy]; exact Bool.false_ne_true
    have h2 : ¬ key x = key y := fun e => keyLess_ne hy e.symm
    unfold kvPut
    rw [if_neg h1, if_neg h2, ih (fun a ha => h a (List.mem_cons_of_mem _ ha))]
    rfl

theorem map_kvPut {α β : Type} (key : α → String) (key2 : β → String) (f : α → β) (x : α)
    (l : List α) (hx : key2 (f x) = key x) (hl : ∀ a ∈ l, key2 (f a) = key a) :
    (kvPut key x l).map f = kvPut key2 (f x) (l.map f) := by
  induction l with
  | nil => rfl
  | cons y ys ih =>
    have hy := hl y (List.mem_cons_self _ _)
    have ih1 := ih (fun a ha => hl a (List.mem_cons_of_mem _ ha))
    simp only [List.map_cons]
    unfold kvPut
    rw [hx, hy]
    by_cases h1 : keyLess (key x) (key y) = true
    · rw [if_pos h1, if_pos h1]; rfl
    · rw [if_neg h1, if_neg h1]
      by_cases h2 : key x = key y
      · rw [if_pos h2, if_pos h2]; rfl
      · rw [if_neg h2, if_neg h2, List.map_cons, ih1]

theorem map_kvDelete {α β : Type} (key : α → String) (key2 : β → String) (f : α → β)
    (k : String) (l : List α) (hl : ∀ a ∈ l, key2 (f a) = key a) :
    (kvDelete key k l).map f = kvDelete key2 k (l.map f) := by
  induction l with
  | nil => rfl
  | cons y ys ih =>
    have hy := hl y (List.mem_cons_self _ _)
    have ih1 := ih (fun a ha => hl a (List.mem_cons_of_mem _ ha))
    rw [List.map_cons, kvDelete_cons, kvDelete_cons, hy]
    by_cases h : key y = k
    · rw [if_pos h, if_pos h, ih1]
    · rw [if_neg h, if_neg h, List.map_cons, ih1]

/-! ## The rebuild and the live index -/

theorem entryRecord_Id {e : String × Stored Target} (h : IndexableEntry e) :
    (entryRecord e).Id = e.1 := by
  obtain ⟨t, ht, hk, _, _⟩ := h
  simp [entryRecord, ht, newTargetIndexRecord, hk]

theorem targetIndexInitEach_ok_entries :
    ∀ (b : List (String × Stored Target)) (acc idx : List targetIndexRecord),
    targetIndexInitEach b acc = Result.ok idx →
    ∀ e ∈ b, ∃ t, e.2 = Stored.record t ∧ t.ResourceId ≠ "" ∧ t.Name ≠ ""
  | [], _, _, _ => by simp
  | (k, Stored.corrupt) :: rest, acc, idx, h => by simp [targetIndexInitEach] at h
  | (k, Stored.record value) :: rest, acc, idx, h => by
    unfold targetIndexInitEach at h
    cases hset : targetIndexSet acc k value with
    | panicked => simp [hset] at h
    | err e => simp [hset] at h
    | ok tbl1 =>
      simp only [hset] at h
      obtain ⟨hid, hname, _⟩ := targetIndexInsert_ok hset
      intro e he
      rcases List.mem_cons.mp he with he | he
      · exact ⟨value, by rw [he], hid, hname⟩
      · exact targetIndexInitEach_ok_entries rest tbl1 idx h e he

theorem targetIndexInitEach_sorted :
    ∀ (b : List (String × Stored Target)) (acc : List targetIndexRecord),
    KeySorted Prod.fst b → (∀ e ∈ b, IndexableEntry e) →
    (∀ a ∈ acc, ∀ e ∈ b, keyLess a.Id e.1 = true) →
    targetIndexInitEach b acc = Result.ok (acc ++ b.map entryRecord)
  | [], acc, _, _, _ => by simp [targetIndexInitEach]
  | (k, Stored.corrupt) :: rest, acc, _, hok, _ => by
    obtain ⟨t, ht, _⟩ := hok (k, Stored.corrupt) (List.mem_cons_self _ _)
    simp at ht
  | (k, Stored.record value) :: rest, acc, hs, hok, hacc => by
    have hentry := hok (k, Stored.record value) (List.mem_cons_self _ _)
    obtain ⟨t, ht, hk, hid, hname⟩ := hentry
    simp only [Stored.record.injEq] at ht
    subst ht
    simp only at hk
    unfold KeySorted at hs
    rw [List.pairwise_cons] at hs
    have hput : kvPut targetIndexRecord.Id (newTargetIndexRecord value) acc
        = acc ++ [newTargetIndexRecord value] := by
      apply kvPut_append
      intro a ha
      have := hacc a ha (k, Stored.record value) (List.mem_cons_self _ _)
      simpa [newTargetIndexRecord, hk] using this
    have hset : targetIndexSet acc k value
        = Result.ok (acc ++ [newTargetIndexRecord value]) := by
      simp [targetIndexSet, targetIndexInsert, newTargetIndexRecord, hid, hname] at hput ⊢
      exact hput
    unfold targetIndexInitEach
    simp only [hset]
    rw [targetIndexInitEach_sorted rest (acc ++ [newTargetIndexRecord value]) hs.2
      (fun e he => hok e (List.mem_cons_of_mem _ he))]
    · simp [entryRecord]
    · intro a ha e he
      rcases List.mem_append.mp ha with ha | ha
      · exact hacc a ha e (List.mem_cons_of_mem _ he)
      · simp only [List.mem_singleton] at ha
        rw [ha]
        have := hs.1 e he
        simpa [newTargetIndexRecord, hk] using this

theorem targetIndexInit_eq (s : State) :
    targetIndexInit { s with inmem := { s.inmem with target := [] } } = Result.ok s ↔
    targetIndexInitEach s.db.target [] = Result.ok s.inmem.target := by
  unfold targetIndexInit
  simp only
  cases h : targetIndexInitEach s.db.target [] with
  | panicked => simp
  | err e => simp
  | ok tbl =>
    simp only [Result.ok.injEq]
    constructor
    · intro hs
      have := congrArg (fun x => x.inmem.target) hs
      simpa using this
    · intro hs
      subst hs
      rfl

theorem FreshlyRebuilt_iff (s : State) :
    FreshlyRebuilt s ↔
      KeySorted Prod.fst s.db.target ∧ (∀ e ∈ s.db.target, IndexableEntry e) ∧
      s.inmem.target = s.db.target.map entryRecord := by
  unfold FreshlyRebuilt
  rw [targetIndexInit_eq]
  constructor
  · rintro ⟨hs, hk, hr⟩
    have hent : ∀ e ∈ s.db.target, IndexableEntry e := by
      intro e he
      obtain ⟨t, ht, hid, hname⟩ := targetIndexInitEach_ok_entries _ _ _ hr e he
      exact ⟨t, ht, hk e he t ht, hid, hname⟩
    have := targetIndexInitEach_sorted s.db.target [] hs hent (by simp)
    rw [hr] at this
    simp only [List.nil_append, Result.ok.injEq] at this
    exact ⟨hs, hent, this⟩
  · rintro ⟨hs, hent, hidx⟩
    refine ⟨hs, ?_, ?_⟩
    · intro e he t ht
      obtain ⟨t1, ht1, hk, _, _⟩ := hent e he
      rw [ht] at ht1
      simp only [Stored.record.injEq] at ht1
      rw [ht1]; exact hk
    · have := targetIndexInitEach_sorted s.db.target [] hs hent (by simp)
      rw [this, hidx]
      simp

theorem FreshlyRebuilt_step (s : State) (op : Op) (h : FreshlyRebuilt s) :
    FreshlyRebuilt (step s op) := by
  rw [FreshlyRebuilt_iff] at h ⊢
  obtain ⟨hs, hent, hidx⟩ := h
  have hkeys : ∀ a ∈ s.db.target, (entryRecord a).Id = a.1 :=
    fun a ha => entryRecord_Id (hent a ha)
  cases op with
  | put env target =>
    simp only [step]
    by_cases hok : (TargetPut env s target).2.2 = Result.ok ()
    · obtain ⟨_, hput⟩ := TargetPut_ok hok
      obtain ⟨pref, p, _, _, _, hid, hname, hb, hi, _⟩ := targetPut_ok hput
      have hnew : IndexableEntry ((TargetPut env s target).2.1.ResourceId,
          Stored.record (TargetPut env s target).2.1) := ⟨_, rfl, rfl, hid, hname⟩
      rw [hb, hi]
      refine ⟨KeySorted_kvPut _ _ _ hs, ?_, ?_⟩
      · intro e he
        rcases mem_kvPut _ _ _ _ he with he | he
        · rw [he]; exact hnew
        · exact hent e he
      · rw [map_kvPut Prod.fst targetIndexRecord.Id entryRecord _ _ (entryRecord_Id hnew) hkeys,
          hidx]
        rfl
    · rw [TargetPut_not_ok hok]; exact ⟨hs, hent, hidx⟩
  | delete env ref =>
    simp only [step]
    by_cases hok : (TargetDelete env s ref).2 = Result.ok ()
    · obtain ⟨_, hdel⟩ := TargetDelete_ok hok
      obtain ⟨rp, p, _, _, _, _, hb, hi, _⟩ := targetDelete_ok hdel
      rw [hb, hi]
      refine ⟨KeySorted_kvDelete _ _ _ hs, ?_, ?_⟩
      · intro e he
        exact hent e (List.mem_of_mem_filter he)
      · rw [map_kvDelete Prod.fst targetIndexRecord.Id entryRecord _ _ hkeys, hidx]
    · rw [TargetDelete_not_ok hok]; exact ⟨hs, hent, hidx⟩

theorem FreshlyRebuilt_run (s : State) (ops : List Op) (h : FreshlyRebuilt s) :
    FreshlyRebuilt (run s ops) := by
  induction ops generalizing s with
  | nil => simpa [run] using h
  | cons op ops ih =>
    have := ih (step s op) (FreshlyRebuilt_step s op h)
    simpa [run] using this

/-! ## The parent record after a write -/

theorem projectGet_congr (s : State) (a b : Ref_Project) (h : a.ResourceId = b.ResourceId) :
    projectGet s a = projectGet s b := by
  simp [projectGet, h]

theorem projectGet_of_project_eq (s s1 : State) (ref : Ref_Project)
    (h : s1.db.project = s.db.project) : projectGet s1 ref = projectGet s ref := by
  simp [projectGet, h]

theorem projectGet_after_put (s s1 : State) (ref : Ref_Project) (p : Project)
    (hkey : p.ResourceId = ref.ResourceId)
    (h : s1.db.project = kvPut Prod.fst (p.ResourceId, Stored.record p) s.db.project) :
    projectGet s1 ref = Result.ok p := by
  simp only [projectGet, h, ← hkey]
  exact dbGet_kvPut_self _ _ _

/-! ## Lookups in the index -/

theorem kvGet_some {α : Type} (key : α → String) (k : String) (l : List α) (x : α)
    (h : kvGet key k l = some x) : x ∈ l ∧ key x = k := by
  unfold kvGet at h
  exact ⟨List.mem_of_find?_eq_some h, by simpa using List.find?_some h⟩

theorem kvGet_none {α : Type} (key : α → String) (k : String) (l : List α)
    (h : kvGet key k l = none) : ∀ x ∈ l, key x ≠ k := by
  unfold kvGet at h
  intro x hx
  simpa using List.find?_eq_none.mp h x hx

theorem kvGet_isSome_of_mem {α : Type} (key : α → String) (l : List α) (x : α)
    (h : x ∈ l) : ∃ y, kvGet key (key x) l = some y := by
  cases hg : kvGet key (key x) l with
  | some y => exact ⟨y, rfl⟩
  | none => exact absurd rfl (kvGet_none key (key x) l hg x h)

theorem dbGet_ok_mem {α : Type} (b : List (String × Stored α)) (id : String) (v : α)
    (h : dbGet b id = Result.ok v) : (id, Stored.record v) ∈ b := by
  unfold dbGet at h
  cases hg : kvGet Prod.fst id b with
  | none => simp [hg] at h
  | some e =>
    obtain ⟨k, w⟩ := e
    obtain ⟨hmem, hk⟩ := kvGet_some Prod.fst id b (k, w) hg
    simp only at hk
    cases w with
    | corrupt => simp [hg] at h
    | record v1 =>
      simp [hg] at h
      rw [← hk, ← h]
      exact hmem

theorem TargetDelete_absent_from_index (env : Env) (s : State) (ref : Ref_Target)
    (rp : Ref_Project) (p : Project) (hrp : ref.Project = some rp)
    (hget : projectGet s { ResourceId := rp.ResourceId, Name := "", Basis := none }
      = Result.ok p)
    (hid : ref.ResourceId ≠ "")
    (hgone : kvGet targetIndexRecord.Id ref.ResourceId s.inmem.target = none) :
    TargetDelete env s ref = (s, Result.err Error.memdbNotFound) := by
  simp [TargetDelete, targetDelete, hrp, hget, targetIndexDelete, newTargetIndexRecordByRef,
    hid, hgone]

theorem scenarioTwoProjects_consistent : Consistent scenarioTwoProjects := by
  refine ⟨?_, ?_, ?_⟩
  · intro r hr
    simp only [scenarioTwoProjects, List.mem_singleton] at hr
    subst hr
    decide
  · intro r hr
    simp only [scenarioTwoProjects, List.mem_singleton] at hr
    subst hr
    exact ⟨{ ResourceId := "tgt-001", Name := "web-1", Project := some scenarioProjectRef,
             Payload := "vm" }, by decide, by decide⟩
  · intro e he
    simp only [scenarioTwoProjects, List.mem_singleton] at he
    subst he
    exact ⟨{ Id := "tgt-001", Name := "web-1", ProjectId := "proj-A" },
      List.mem_singleton.mpr rfl, rfl⟩

/-! ## A freshly rebuilt state is consistent -/

theorem kvGet_of_mem_sorted {α : Type} (key : α → String) (l : List α) (x : α)
    (hs : KeySorted key l) (hx : x ∈ l) : kvGet key (key x) l = some x := by
  induction l with
  | nil => simp at hx
  | cons y ys ih =>
    unfold KeySorted at hs ih
    rw [List.pairwise_cons] at hs
    rw [kvGet_cons]
    rcases List.mem_cons.mp hx with hxy | hxy
    · simp [hxy]
    · have hne : ¬ key y = key x := keyLess_ne (hs.1 x hxy)
      rw [if_neg hne]
      exact ih hs.2 hxy

theorem FreshlyRebuilt_listMatches (s : State) (h : FreshlyRebuilt s) :
    ListMatchesBucket s := by
  obtain ⟨_, hent, hidx⟩ := (FreshlyRebuilt_iff s).mp h
  intro k
  rw [listedIds_eq, bucketKeys, hidx, List.map_map]
  have : s.db.target.map (targetIndexRecord.Id ∘ entryRecord) = s.db.target.map Prod.fst :=
    List.map_congr_left (fun e he => entryRecord_Id (hent e he))
  rw [this]

theorem FreshlyRebuilt_consistent (s : State) (h : FreshlyRebuilt s) : Consistent s := by
  obtain ⟨hs, hent, hidx⟩ := (FreshlyRebuilt_iff s).mp h
  have hrec : ∀ r ∈ s.inmem.target, ∃ e ∈ s.db.target, ∃ t, e = (r.Id, Stored.record t) ∧
      newTargetIndexRecord t = r ∧ t.ResourceId ≠ "" := by
    intro r hr
    rw [hidx] at hr
    obtain ⟨e, he, her⟩ := List.mem_map.mp hr
    obtain ⟨t, ht, hk, hid, _⟩ := hent e he
    have hrt : newTargetIndexRecord t = r := by
      rw [← her]; simp [entryRecord, ht]
    have hrid : r.Id = e.1 := by rw [← hrt, ← hk]; rfl
    refine ⟨e, he, t, ?_, hrt, hid⟩
    rw [hrid, ← ht]
  refine ⟨?_, ?_, ?_⟩
  · intro r hr
    obtain ⟨e, _, t, _, hrt, hid⟩ := hrec r hr
    rw [← hrt]; exact hid
  · intro r hr
    obtain ⟨e, he, t, het, hrt, _⟩ := hrec r hr
    refine ⟨t, ?_, hrt⟩
    have hget := kvGet_of_mem_sorted Prod.fst s.db.target e hs he
    rw [het] at hget
    simp only at hget
    simp [dbGet, hget]
  · intro e he
    refine ⟨entryRecord e, ?_, entryRecord_Id (hent e he)⟩
    rw [hidx]
    exact List.mem_map_of_mem _ he

/-! ## The two lookups of `targetFind` -/

theorem KeySorted_nodup_keys {α : Type} (key : α → String) (l : List α)
    (h : KeySorted key l) : (l.map key).Nodup := by
  unfold KeySorted at h
  unfold List.Nodup
  rw [List.pairwise_map]
  exact h.imp (fun hab => keyLess_ne hab)

theorem count_key_kvPut {α : Type} (key : α → String) (x : α) (l : List α)
    (h : KeySorted key l) : ((kvPut key x l).map key).count (key x) = 1 :=
  List.count_eq_one_of_mem (KeySorted_nodup_keys key _ (KeySorted_kvPut key x l h))
    ((mem_keys_kvPut key x (key x) l).mpr (Or.inl rfl))

theorem targetPut_keeps_identifier (env : Env) (tx : State) (value : Target)
    (hid : value.ResourceId ≠ "") : (targetPut env tx value).1 = value := by
  unfold targetPut
  cases value.Project with
  | none => rfl
  | some pref =>
    simp only
    cases projectGet tx pref with
    | panicked => rfl
    | err e => rfl
    | ok p =>
      simp only [if_neg hid]
      cases dbPut env.dbPut tx.db.target (targetId value) value with
      | panicked => rfl
      | err e => rfl
      | ok b =>
        simp only
        cases targetIndexSet tx.inmem.target (targetId value) value with
        | panicked => rfl
        | err e => rfl
        | ok tbl =>
          simp only
          rcases AddTarget p value with ⟨p1, c⟩
          cases c <;> rfl

theorem TargetPut_fst_snd (env : Env) (s : State) (target : Target) :
    (TargetPut env s target).2.1 = (targetPut env s target).1 := by
  unfold TargetPut
  rcases targetPut env s target with ⟨t1, r⟩
  cases r with
  | panicked => rfl
  | err e => rfl
  | ok tx => cases env.commit <;> rfl

theorem projectPut_generator (env : Env) (gen : String × Option Error) (tx : State)
    (p : Project) : projectPut { env with newResourceId := gen } tx p = projectPut env tx p := by
  simp [projectPut]

theorem TargetPut_generator (env : Env) (gen : String × Option Error) (s : State)
    (target : Target) (hid : target.ResourceId ≠ "") :
    TargetPut { env with newResourceId := gen } s target = TargetPut env s target := by
  have h : targetPut { env with newResourceId := gen } s target = targetPut env s target := by
    unfold targetPut
    cases target.Project with
    | none => rfl
    | some pref =>
      simp only
      cases projectGet s pref with
      | panicked => rfl
      | err e => rfl
      | ok p => simp only [if_neg hid, projectPut_generator]
  unfold TargetPut
  rw [h]

/-! ## The back-reference invariant -/

theorem dbGet_kvPut {α : Type} (k j : String) (v : α) (b : List (String × Stored α)) :
    dbGet (kvPut Prod.fst (k, Stored.record v) b) j
      = if k = j then Result.ok v else dbGet b j := by
  unfold dbGet
  rw [kvGet_kvPut]
  by_cases h : k = j
  · simp [h]
  · simp [h]

theorem targetPut_Project {env : Env} {value : Target} :
    (if value.ResourceId = "" then { value with ResourceId := env.newResourceId.1 }
      else value).Project = value.Project := by
  by_cases h : value.ResourceId = "" <;> simp [h]

theorem wellFormed_step (s : State) (op : Op)
    (hk : KeyedByResourceId s.db.target) (hpk : ProjectsKeyed s) (hb : BackReferenced s) :
    KeyedByResourceId (step s op).db.target ∧ ProjectsKeyed (step s op) ∧
    BackReferenced (step s op) := by
  cases op with
  | put env target =>
    simp only [step]
    by_cases hok : (TargetPut env s target).2.2 = Result.ok ()
    · obtain ⟨_, hput⟩ := TargetPut_ok hok
      obtain ⟨pref, p, hproj, hget, hv, _, _, hbt, _, hcascade⟩ := targetPut_ok hput
      generalize (TargetPut env s target).1 = s1 at *
      generalize (TargetPut env s target).2.1 = v1 at *
      have hv1proj : v1.Project = some pref := by
        rw [hv, targetPut_Project, hproj]
      have hpkey : p.ResourceId = pref.ResourceId := hpk _ _ hget
      have hkeyed : KeyedByResourceId s1.db.target := by
        intro e he t ht
        rw [hbt] at he
        rcases mem_kvPut _ _ _ _ he with he | he
        · rw [he] at ht ⊢
          simp only [Stored.record.injEq] at ht
          rw [← ht]
        · exact hk e he t ht
      rcases hcascade with ⟨hmem, hdb, _⟩ | ⟨_, _, hdb, _⟩
      · have hpg : ∀ q, projectGet s1 q = projectGet s q :=
          fun q => projectGet_of_project_eq s s1 q hdb
        refine ⟨hkeyed, ?_, ?_⟩
        · intro k q hq
          have := hpg { ResourceId := k, Name := "", Basis := none }
          simp only [projectGet] at this
          rw [this] at hq
          exact hpk k q hq
        · intro e he t pref1 ht hp1
          rw [hbt] at he
          rcases mem_kvPut _ _ _ _ he with he | he
          · rw [he] at ht
            simp only [Stored.record.injEq] at ht
            subst ht
            rw [hv1proj] at hp1
            simp only [Option.some.injEq] at hp1
            subst hp1
            exact ⟨p, by rw [hpg, hget], hmem⟩
          · obtain ⟨p1, hg1, hm1⟩ := hb e he t pref1 ht hp1
            exact ⟨p1, by rw [hpg, hg1], hm1⟩
      · have hpg : ∀ q, projectGet s1 q =
            if p.ResourceId = q.ResourceId then
              Result.ok { p with Targets := p.Targets ++ [v1.ResourceId] }
            else projectGet s q := by
          intro q
          simp only [projectGet, hdb]
          exact dbGet_kvPut _ _ _ _
        refine ⟨hkeyed, ?_, ?_⟩
        · intro k q hq
          have := hpg { ResourceId := k, Name := "", Basis := none }
          simp only [projectGet] at this
          rw [this] at hq
          by_cases hkk : p.ResourceId = k
          · rw [if_pos hkk] at hq
            simp only [Result.ok.injEq] at hq
            rw [← hq]; exact hkk
          · rw [if_neg hkk] at hq
            exact hpk k q hq
        · intro e he t pref1 ht hp1
          rw [hbt] at he
          rcases mem_kvPut _ _ _ _ he with he | he
          · rw [he] at ht
            simp only [Stored.record.injEq] at ht
            subst ht
            rw [hv1proj] at hp1
            simp only [Option.some.injEq] at hp1
            subst hp1
            refine ⟨_, by rw [hpg, if_pos hpkey], ?_⟩
            simp
          · obtain ⟨p1, hg1, hm1⟩ := hb e he t pref1 ht hp1
            by_cases hkk : p.ResourceId = pref1.ResourceId
            · have : p1 = p := by
                have h1 := projectGet_congr s pref1 pref (hkk.symm.trans hpkey)
                rw [hg1, hget] at h1
                simpa using h1
              subst this
              refine ⟨_, by rw [hpg, if_pos hkk], ?_⟩
              simp [hm1]
            · exact ⟨p1, by rw [hpg, if_neg hkk, hg1], hm1⟩
    · rw [TargetPut_not_ok hok]; exact ⟨hk, hpk, hb⟩
  | delete env ref =>
    simp only [step]
    by_cases hok : (TargetDelete env s ref).2 = Result.ok ()
    · obtain ⟨_, hdel⟩ := TargetDelete_ok hok
      obtain ⟨rp, p, _, hget, _, _, hbt, _, hcascade⟩ := targetDelete_ok hdel
      generalize (TargetDelete env s ref).1 = s1 at *
      have hpkey : p.ResourceId = rp.ResourceId := hpk _ _ hget
      have hold : ∀ e ∈ s1.db.target, e ∈ s.db.target ∧ e.1 ≠ ref.ResourceId := by
        intro e he
        rw [hbt] at he
        simp only [kvDelete, List.mem_filter] at he
        exact ⟨he.1, by simpa using he.2⟩
      have hkeyed : KeyedByResourceId s1.db.target :=
        fun e he t ht => hk e (hold e he).1 t ht
      rcases hcascade with ⟨_, hdb, _⟩ | ⟨_, _, hdb, _⟩
      · have hpg : ∀ q, projectGet s1 q = projectGet s q :=
          fun q => projectGet_of_project_eq s s1 q hdb
        refine ⟨hkeyed, ?_, ?_⟩
        · intro k q hq
          have := hpg { ResourceId := k, Name := "", Basis := none }
          simp only [projectGet] at this
          rw [this] at hq
          exact hpk k q hq
        · intro e he t pref1 ht hp1
          obtain ⟨p1, hg1, hm1⟩ := hb e (hold e he).1 t pref1 ht hp1
          exact ⟨p1, by rw [hpg, hg1], hm1⟩
      · have hpg : ∀ q, projectGet s1 q =
            if p.ResourceId = q.ResourceId then
              Result.ok { p with
                Targets := p.Targets.filter (fun i => !decide (i = ref.ResourceId)) }
            else projectGet s q := by
          intro q
          simp only [projectGet, hdb]
          exact dbGet_kvPut _ _ _ _
        refine ⟨hkeyed, ?_, ?_⟩
        · intro k q hq
          have := hpg { ResourceId := k, Name := "", Basis := none }
          simp only [projectGet] at this
          rw [this] at hq
          by_cases hkk : p.ResourceId = k
          · rw [if_pos hkk] at hq
            simp only [Result.ok.injEq] at hq
            rw [← hq]; exact hkk
          · rw [if_neg hkk] at hq
            exact hpk k q hq
        · intro e he t pref1 ht hp1
          obtain ⟨hmemold, hne⟩ := hold e he
          obtain ⟨p1, hg1, hm1⟩ := hb e hmemold t pref1 ht hp1
          have htid : t.ResourceId ≠ ref.ResourceId := by
            rw [hk e hmemold t ht]; exact hne
          by_cases hkk : p.ResourceId = pref1.ResourceId
          · have : p1 = p := by
              have h1 := projectGet_congr s pref1
                { ResourceId := rp.ResourceId, Name := "", Basis := none }
                (hkk.symm.trans hpkey)
              rw [hg1, hget] at h1
              simpa using h1
            subst this
            refine ⟨_, by rw [hpg, if_pos hkk], ?_⟩
            simp [hm1, htid]
          · exact ⟨p1, by rw [hpg, if_neg hkk, hg1], hm1⟩
    · rw [TargetDelete_not_ok hok]; exact ⟨hk, hpk, hb⟩

theorem wellFormed_run (s : State) (ops : List Op)
    (hk : KeyedByResourceId s.db.target) (hpk : ProjectsKeyed s) (hb : BackReferenced s) :
    KeyedByResourceId (run s ops).db.target ∧ ProjectsKeyed (run s ops) ∧
    BackReferenced (run s ops) := by
  induction ops generalizing s with
  | nil => exact ⟨hk, hpk, hb⟩
  | cons op ops ih =>
    obtain ⟨h1, h2, h3⟩ := wellFormed_step s op hk hpk hb
    have := ih (step s op) h1 h2 h3
    simpa [run] using this

theorem scenarioTwoProjects_keyed : KeyedByResourceId scenarioTwoProjects.db.target := by
  intro e he t ht
  simp only [scenarioTwoProjects, List.mem_singleton] at he
  subst he
  simp only [Stored.record.injEq] at ht
  rw [← ht]

theorem scenarioTwoProjects_projectsKeyed : ProjectsKeyed scenarioTwoProjects := by
  intro k p h
  have hmem := dbGet_ok_mem _ _ _ h
  simp only [scenarioTwoProjects, List.mem_cons, Prod.mk.injEq, Stored.record.injEq,
    List.mem_singleton, List.not_mem_nil, or_false] at hmem
  rcases hmem with ⟨hk, hp⟩ | ⟨hk, hp⟩
  · rw [hk, hp]; rfl
  · rw [hk, hp]

theorem scenarioTwoProjects_backReferenced : BackReferenced scenarioTwoProjects := by
  intro e he t pref ht hp
  simp only [scenarioTwoProjects, List.mem_singleton] at he
  subst he
  simp only [Stored.record.injEq] at ht
  subst ht
  simp only [Option.some.injEq] at hp
  subst hp
  exact ⟨{ scenarioProject with Targets := ["tgt-001"] }, by decide, by decide⟩

/-! ## Running the rebuild again -/

theorem kvGet_none_of_sorted_head {α : Type} (key : α → String) (x : α) (xs : List α)
    (h : KeySorted key (x :: xs)) : kvGet key (key x) xs = none := by
  unfold KeySorted at h
  rw [List.pairwise_cons] at h
  cases hg : kvGet key (key x) xs with
  | none => rfl
  | some y =>
    obtain ⟨hy, hk⟩ := kvGet_some key _ xs y hg
    exact absurd hk.symm (keyLess_ne (h.1 y hy))

theorem KeySorted_ext {α : Type} (key : α → String) :
    ∀ (l1 l2 : List α), KeySorted key l1 → KeySorted key l2 →
      (∀ k, kvGet key k l1 = kvGet key k l2) → l1 = l2
  | [], [], _, _, _ => rfl
  | [], y :: ys, _, _, h => by
    have := h (key y)
    simp [kvGet_cons, kvGet_nil] at this
  | x :: xs, [], _, _, h => by
    have := h (key x)
    simp [kvGet_cons, kvGet_nil] at this
  | x :: xs, y :: ys, h1, h2, h => by
    have hx := h (key x)
    have hy := h (key y)
    rw [kvGet_cons, kvGet_cons, if_pos rfl] at hx
    rw [kvGet_cons, kvGet_cons, if_pos rfl] at hy
    have h1' := h1
    have h2' := h2
    unfold KeySorted at h1' h2'
    rw [List.pairwise_cons] at h1' h2'
    by_cases hk : key x = key y
    · rw [if_pos hk.symm] at hx
      simp only [Option.some.injEq] at hx
      subst hx
      have htail : ∀ k, kvGet key k xs = kvGet key k ys := by
        intro k
        by_cases hkx : key x = k
        · rw [← hkx, kvGet_none_of_sorted_head key x xs h1,
            kvGet_none_of_sorted_head key x ys h2]
        · have := h k
          rw [kvGet_cons, kvGet_cons, if_neg hkx, if_neg hkx] at this
          exact this
      rw [KeySorted_ext key xs ys h1'.2 h2'.2 htail]
    · rw [if_neg (fun e => hk e.symm)] at hx
      rw [if_neg hk] at hy
      obtain ⟨hxin, _⟩ := kvGet_some key _ ys x hx.symm
      obtain ⟨hyin, _⟩ := kvGet_some key _ xs y hy
      have hlt1 := h2'.1 x hxin
      have hlt2 := h1'.1 y hyin
      rw [keyLess_asymm hlt1] at hlt2
      exact absurd hlt2 Bool.false_ne_true

theorem targetIndexInitEach_any_table :
    ∀ (b : List (String × Stored Target)) (acc idx acc1 : List targetIndexRecord),
    targetIndexInitEach b acc = Result.ok idx →
    ∃ idx1, targetIndexInitEach b acc1 = Result.ok idx1
  | [], _, _, acc1, _ => ⟨acc1, by simp [targetIndexInitEach]⟩
  | (k, Stored.corrupt) :: rest, acc, idx, _, h => by simp [targetIndexInitEach] at h
  | (k, Stored.record value) :: rest, acc, idx, acc1, h => by
    unfold targetIndexInitEach at h ⊢
    cases hset : targetIndexSet acc k value with
    | panicked => simp [hset] at h
    | err e => simp [hset] at h
    | ok tbl =>
      simp only [hset] at h
      obtain ⟨hid, hname, _⟩ := targetIndexInsert_ok hset
      have hset1 : targetIndexSet acc1 k value
          = Result.ok (kvPut targetIndexRecord.Id (newTargetIndexRecord value) acc1) := by
        simp [targetIndexSet, targetIndexInsert, hid, hname]
      simp only [hset1]
      exact targetIndexInitEach_any_table rest tbl idx _ h

theorem targetIndexInitEach_sorted_table :
    ∀ (b : List (String × Stored Target)) (acc idx : List targetIndexRecord),
    KeySorted targetIndexRecord.Id acc → targetIndexInitEach b acc = Result.ok idx →
    KeySorted targetIndexRecord.Id idx
  | [], acc, idx, hs, h => by
    simp only [targetIndexInitEach, Result.ok.injEq] at h
    rw [← h]; exact hs
  | (k, Stored.corrupt) :: rest, acc, idx, _, h => by simp [targetIndexInitEach] at h
  | (k, Stored.record value) :: rest, acc, idx, hs, h => by
    unfold targetIndexInitEach at h
    cases hset : targetIndexSet acc k value with
    | panicked => simp [hset] at h
    | err e => simp [hset] at h
    | ok tbl =>
      simp only [hset] at h
      obtain ⟨_, _, htbl⟩ := targetIndexInsert_ok hset
      exact targetIndexInitEach_sorted_table rest tbl idx
        (by rw [htbl]; exact KeySorted_kvPut _ _ _ hs) h

theorem targetIndexInitEach_lookup :
    ∀ (b : List (String × Stored Target)) (k : String),
    (∀ acc idx, targetIndexInitEach b acc = Result.ok idx →
      kvGet targetIndexRecord.Id k idx = kvGet targetIndexRecord.Id k acc) ∨
    (∃ v, ∀ acc idx, targetIndexInitEach b acc = Result.ok idx →
      kvGet targetIndexRecord.Id k idx = v)
  | [], k => Or.inl (fun acc idx h => by
      simp only [targetIndexInitEach, Result.ok.injEq] at h
      rw [h])
  | (j, Stored.corrupt) :: rest, k =>
    Or.inl (fun acc idx h => by simp [targetIndexInitEach] at h)
  | (j, Stored.record value) :: rest, k => by
    have hstep : ∀ acc idx, targetIndexInitEach ((j, Stored.record value) :: rest) acc
        = Result.ok idx →
        targetIndexInitEach rest
          (kvPut targetIndexRecord.Id (newTargetIndexRecord value) acc) = Result.ok idx := by
      intro acc idx h
      unfold targetIndexInitEach at h
      cases hset : targetIndexSet acc j value with
      | panicked => simp [hset] at h
      | err e => simp [hset] at h
      | ok tbl =>
        simp only [hset] at h
        obtain ⟨_, _, htbl⟩ := targetIndexInsert_ok hset
        rw [← htbl]; exact h
    rcases targetIndexInitEach_lookup rest k with hrest | ⟨v, hrest⟩
    · by_cases hk : (newTargetIndexRecord value).Id = k
      · refine Or.inr ⟨some (newTargetIndexRecord value), ?_⟩
        intro acc idx h
        rw [hrest _ idx (hstep acc idx h), kvGet_kvPut, if_pos hk]
      · refine Or.inl ?_
        intro acc idx h
        rw [hrest _ idx (hstep acc idx h), kvGet_kvPut, if_neg hk]
    · exact Or.inr ⟨v, fun acc idx h => hrest _ idx (hstep acc idx h)⟩

theorem targetIndexInitEach_again (b : List (String × Stored Target))
    (acc idx : List targetIndexRecord) (hs : KeySorted targetIndexRecord.Id acc)
    (h : targetIndexInitEach b acc = Result.ok idx) :
    targetIndexInitEach b idx = Result.ok idx := by
  obtain ⟨idx2, h2⟩ := targetIndexInitEach_any_table b acc idx idx h
  have hs1 := targetIndexInitEach_sorted_table b acc idx hs h
  have hs2 := targetIndexInitEach_sorted_table b idx idx2 hs1 h2
  have hext : ∀ k, kvGet targetIndexRecord.Id k idx2 = kvGet targetIndexRecord.Id k idx := by
    intro k
    rcases targetIndexInitEach_lookup b k with hid | ⟨v, hv⟩
    · exact hid idx idx2 h2
    · rw [hv idx idx2 h2, hv acc idx h]
  rw [h2, KeySorted_ext targetIndexRecord.Id idx2 idx hs2 hs1 hext]

theorem targetIndexInitEach_succeeds :
    ∀ (b : List (String × Stored Target)) (acc : List targetIndexRecord),
    (∀ e ∈ b, ∃ t, e.2 = Stored.record t ∧ t.ResourceId ≠ "" ∧ t.Name ≠ "") →
    ∃ idx, targetIndexInitEach b acc = Result.ok idx
  | [], acc, _ => ⟨acc, by simp [targetIndexInitEach]⟩
  | (k, Stored.corrupt) :: rest, acc, h => by
    obtain ⟨t, ht, _⟩ := h (k, Stored.corrupt) (List.mem_cons_self _ _)
    simp at ht
  | (k, Stored.record value) :: rest, acc, h => by
    obtain ⟨t, ht, hid, hname⟩ := h (k, Stored.record value) (List.mem_cons_self _ _)
    simp only [Stored.record.injEq] at ht
    subst ht
    have hset : targetIndexSet acc k value
        = Result.ok (kvPut targetIndexRecord.Id (newTargetIndexRecord value) acc) := by
      simp [targetIndexSet, targetIndexInsert, newTargetIndexRecord, hid, hname]
    unfold targetIndexInitEach
    simp only [hset]
    exact targetIndexInitEach_succeeds rest _ (fun e he => h e (List.mem_cons_of_mem _ he))

theorem targetIndexInitEach_fails_alike :
    ∀ (b : List (String × Stored Target)) (acc acc1 : List targetIndexRecord) (e : Error),
    targetIndexInitEach b acc = Result.err e → targetIndexInitEach b acc1 = Result.err e
  | [], _, _, _, h => by simp [targetIndexInitEach] at h
  | (k, Stored.corrupt) :: rest, _, _, e, h => by
    simp only [targetIndexInitEach] at h ⊢
    exact h
  | (k, Stored.record value) :: rest, acc, acc1, e, h => by
    unfold targetIndexInitEach at h ⊢
    by_cases hid : value.ResourceId = ""
    · simp [targetIndexSet, targetIndexInsert, newTargetIndexRecord, hid] at h ⊢
      exact h
    · by_cases hname : value.Name = ""
      · simp [targetIndexSet, targetIndexInsert, newTargetIndexRecord, hid, hname] at h ⊢
        exact h
      · simp only [targetIndexSet, targetIndexInsert, newTargetIndexRecord, hid, hname,
          if_false] at h ⊢
        exact targetIndexInitEach_fails_alike rest _ _ e h

/-! ## An omitted parent reference -/

theorem TargetDelete_nil_Project (env : Env) (s : State) (ref : Ref_Target)
    (h : ref.Project = none) : TargetDelete env s ref = (s, Result.panicked) := by
  simp [TargetDelete, targetDelete, h]

theorem TargetPut_nil_Project (env : Env) (s : State) (target : Target)
    (h : target.Project = none) : TargetPut env s target = (s, target, Result.panicked) := by
  simp [TargetPut, targetPut, h]

theorem TargetDelete_unknown_parent (env : Env) (s : State) (ref : Ref_Target)
    (rp : Ref_Project) (h : ref.Project = some rp)
    (hunknown : kvGet Prod.fst rp.ResourceId s.db.project = none) :
    TargetDelete env s ref = (s, Result.err Error.statusNotFound) := by
  simp [TargetDelete, targetDelete, h, projectGet, dbGet, hunknown]

/-! ## The stores with NUL and accents in names -/

/-- C1: when the record names a project that is not stored, `TargetPut` returns the
NotFound status and leaves the durable store and the index as they were (so no
record of the target is added to either), and the record handed in is untouched. -/
theorem TargetPut_unknown_project_aborts (env : Env) (s : State) (target : Target)
    (pref : Ref_Project) (hproject : target.Project = some pref)
    (hunknown : kvGet Prod.fst pref.ResourceId s.db.project = none) :
    TargetPut env s target = (s, target, Result.err Error.statusNotFound) ∧
    Error.kind Error.statusNotFound = Kind.NotFound ∧
    (TargetPut env s target).1.db.target = s.db.target ∧
    (TargetPut env s target).1.inmem.target = s.inmem.target := by
  have h : TargetPut env s target = (s, target, Result.err Error.statusNotFound) := by
    simp [TargetPut, targetPut, hproject, projectGet, dbGet, hunknown]
  refine ⟨h, rfl, ?_, ?_⟩ <;> rw [h]

/-- C1 on a store without projects: the put of "web-1" of "proj-A" is refused with NotFound
and the store is as before. -/
theorem TargetPut_unknown_project_aborts_witness :
    (scenarioTarget.Project = some scenarioProjectRef ∧
      kvGet Prod.fst scenarioProjectRef.ResourceId
        ({ scenarioState with db := { scenarioState.db with project := [] } } : State).db.project
        = none) ∧
    TargetPut (Env.healthy "tgt-001")
        { scenarioState with db := { scenarioState.db with project := [] } } scenarioTarget
      = ({ scenarioState with db := { scenarioState.db with project := [] } }, scenarioTarget,
          Result.err Error.statusNotFound) :=
  ⟨⟨rfl, rfl⟩,
    (TargetPut_unknown_project_aborts (Env.healthy "tgt-001")
      { scenarioState with db := { scenarioState.db with project := [] } } scenarioTarget
      scenarioProjectRef rfl rfl).1⟩

/-- C2: a `TargetPut` or `TargetDelete` that does not return nil (it returns an error,
whatever step failed, or panics) leaves both stores exactly as they were; and when
the durable commit fails the call returns that error and the index keeps its state
(it is committed only after a durable commit without error). -/
theorem failed_write_leaves_stores (env : Env) (s : State) (target : Target)
    (ref : Ref_Target) :
    ((TargetPut env s target).2.2 ≠ Result.ok () → (TargetPut env s target).1 = s) ∧
    ((TargetDelete env s ref).2 ≠ Result.ok () → (TargetDelete env s ref).1 = s) ∧
    (∀ e, env.commit = some e →
      (TargetPut env s target).2.2 ≠ Result.ok () ∧
      (TargetPut env s target).1.inmem = s.inmem ∧
      (TargetDelete env s ref).2 ≠ Result.ok () ∧
      (TargetDelete env s ref).1.inmem = s.inmem) := by
  refine ⟨TargetPut_not_ok, TargetDelete_not_ok, ?_⟩
  intro e hc
  have hput : (TargetPut env s target).2.2 ≠ Result.ok () := by
    intro hok
    have := (TargetPut_ok hok).1
    rw [hc] at this
    exact Option.noConfusion this
  have hdel : (TargetDelete env s ref).2 ≠ Result.ok () := by
    intro hok
    have := (TargetDelete_ok hok).1
    rw [hc] at this
    exact Option.noConfusion this
  exact ⟨hput, by rw [TargetPut_not_ok hput], hdel, by rw [TargetDelete_not_ok hdel]⟩

/-- C2 on the small store: the durable commit of the put of "web-1" fails, and the store is
as before. -/
theorem failed_write_leaves_stores_witness :
    (TargetPut { Env.healthy "tgt-001" with commit := some Error.store } scenarioState
        scenarioTarget).2.2 = Result.err Error.store ∧
    (TargetPut { Env.healthy "tgt-001" with commit := some Error.store } scenarioState
        scenarioTarget).1 = scenarioState :=
  ⟨by decide,
    (failed_write_leaves_stores { Env.healthy "tgt-001" with commit := some Error.store }
      scenarioState scenarioTarget
      { ResourceId := "tgt-001", Name := "", Project := some scenarioProjectRef }).1
      (by decide)⟩

/-- C3: a record with an empty identifier, a name and a stored project is put with
success when nothing fails around the stores; the record returned is the input with
the generated, non-empty identifier, and `TargetGet` on the reference made of that
identifier alone returns exactly that record. -/
theorem TargetPut_TargetGet_round_trip (s : State) (r : Target) (pref : Ref_Project)
    (p : Project) (id : String)
    (hempty : r.ResourceId = "") (hname : r.Name ≠ "")
    (hproject : r.Project = some pref) (hstored : projectGet s pref = Result.ok p)
    (hpid : p.ResourceId ≠ "") (hid : id ≠ "") :
    (TargetPut (Env.healthy id) s r).2.2 = Result.ok () ∧
    (TargetPut (Env.healthy id) s r).2.1 = { r with ResourceId := id } ∧
    (TargetPut (Env.healthy id) s r).2.1.ResourceId ≠ "" ∧
    TargetGet (TargetPut (Env.healthy id) s r).1
      { ResourceId := (TargetPut (Env.healthy id) s r).2.1.ResourceId, Name := "",
        Project := none }
      = Result.ok (TargetPut (Env.healthy id) s r).2.1 := by
  by_cases hmem : id ∈ p.Targets
  · have h : TargetPut (Env.healthy id) s r =
        ({ db := { s.db with
              target := kvPut Prod.fst (id, Stored.record { r with ResourceId := id })
                s.db.target },
           inmem := { s.inmem with
              target := kvPut targetIndexRecord.Id
                (newTargetIndexRecord { r with ResourceId := id }) s.inmem.target } },
         { r with ResourceId := id }, Result.ok ()) := by
      simp [TargetPut, targetPut, hproject, hstored, hempty, Env.healthy, targetId, dbPut, hid,
        targetIndexSet, targetIndexInsert, newTargetIndexRecord, hname, AddTarget, hmem]
    rw [h]
    refine ⟨rfl, rfl, hid, ?_⟩
    simp [TargetGet, targetGet, targetIdByRef, dbGet_kvPut_self]
  · have h : TargetPut (Env.healthy id) s r =
        (State.mk
          (DB.mk (kvPut Prod.fst (id, Stored.record { r with ResourceId := id }) s.db.target)
            (kvPut Prod.fst (p.ResourceId, Stored.record { p with Targets := p.Targets ++ [id] })
              s.db.project))
          (MemDB.mk
            (kvPut targetIndexRecord.Id (newTargetIndexRecord { r with ResourceId := id })
              s.inmem.target)
            (kvPut projectIndexRecord.Id { Id := p.ResourceId, Name := p.Name }
              s.inmem.project)),
         { r with ResourceId := id }, Result.ok ()) := by
      simp [TargetPut, targetPut, hproject, hstored, hempty, Env.healthy, targetId, dbPut, hid,
        targetIndexSet, targetIndexInsert, newTargetIndexRecord, hname, AddTarget, hmem,
        projectPut, hpid]
    rw [h]
    refine ⟨rfl, rfl, hid, ?_⟩
    simp [TargetGet, targetGet, targetIdByRef, dbGet_kvPut_self]

/-- C3 on the small store: "web-1" is put as "tgt-001" and read back. -/
theorem TargetPut_TargetGet_round_trip_witness :
    (scenarioTarget.ResourceId = "" ∧ scenarioTarget.Name ≠ "" ∧
      scenarioTarget.Project = some scenarioProjectRef ∧
      projectGet scenarioState scenarioProjectRef = Result.ok scenarioProject ∧
      scenarioProject.ResourceId ≠ "" ∧ "tgt-001" ≠ "") ∧
    TargetGet (TargetPut (Env.healthy "tgt-001") scenarioState scenarioTarget).1
      { ResourceId :=
          (TargetPut (Env.healthy "tgt-001") scenarioState scenarioTarget).2.1.ResourceId,
        Name := "", Project := none }
      = Result.ok (TargetPut (Env.healthy "tgt-001") scenarioState scenarioTarget).2.1 :=
  ⟨by decide,
    (TargetPut_TargetGet_round_trip scenarioState scenarioTarget scenarioProjectRef
      scenarioProject "tgt-001" rfl (by decide) rfl (by decide) (by decide) (by decide)).2.2.2⟩

/-! ## C4: the listing and the bucket -/

/-- C4: from a state in which `TargetList` returns exactly the keys of the bucket
"target", after each call of any sequence of `TargetPut` and `TargetDelete` calls the
identifiers `TargetList` returns are again exactly the keys of the bucket. -/
theorem TargetList_matches_bucket_after_each_call (s0 : State) (ops : List Op)
    (hstart : ListMatchesBucket s0) :
    ∀ s ∈ states s0 ops, ∀ k : String, k ∈ listedIds s ↔ k ∈ bucketKeys s := by
  intro s hs
  obtain ⟨done, op, rfl⟩ := states_mem_run s0 ops s hs
  exact ListMatchesBucket_step _ op (ListMatchesBucket_run s0 done hstart)

/-- C4 on the store holding "tgt-001": a second put, then the delete of "tgt-001". -/
theorem TargetList_matches_bucket_after_each_call_witness :
    ListMatchesBucket scenarioStored ∧
    ∀ s ∈ states scenarioStored scenarioCalls,
      ∀ k : String, k ∈ listedIds s ↔ k ∈ bucketKeys s :=
  ⟨fun _ => Iff.rfl,
    TargetList_matches_bucket_after_each_call scenarioStored scenarioCalls (fun _ => Iff.rfl)⟩

/-! ## C5: the index is derived from the bucket -/

/-- C5: in every state reached by `TargetPut` and `TargetDelete` calls from a freshly
rebuilt state (an empty target bucket with an empty index is one), running
`targetIndexInit` over the bucket "target" into an empty table rebuilds exactly the
table "target-index" the live state holds. -/
theorem targetIndexInit_rebuilds_live_index (s0 : State) (ops : List Op)
    (hstart : FreshlyRebuilt s0) :
    targetIndexInit
        { run s0 ops with inmem := { (run s0 ops).inmem with target := [] } }
      = Result.ok (run s0 ops) :=
  (FreshlyRebuilt_run s0 ops hstart).2.2

/-- C5 from the small store, whose target bucket and index are empty: two puts and a delete. -/
theorem targetIndexInit_rebuilds_live_index_witness :
    FreshlyRebuilt scenarioState ∧
    targetIndexInit
        { run scenarioState
            (Op.put (Env.healthy "tgt-001") scenarioTarget :: scenarioCalls) with
          inmem := { (run scenarioState
            (Op.put (Env.healthy "tgt-001") scenarioTarget :: scenarioCalls)).inmem with
            target := [] } }
      = Result.ok (run scenarioState
          (Op.put (Env.healthy "tgt-001") scenarioTarget :: scenarioCalls)) :=
  ⟨⟨List.Pairwise.nil, fun e he => absurd he (List.not_mem_nil e), rfl⟩,
    targetIndexInit_rebuilds_live_index scenarioState
      (Op.put (Env.healthy "tgt-001") scenarioTarget :: scenarioCalls)
      ⟨List.Pairwise.nil, fun e he => absurd he (List.not_mem_nil e), rfl⟩⟩

/-! ## C6 to C8: the cascade to the parent -/

/-- C6: let project `p` be stored under its identifier with a duplicate-free `Targets`
collection.  After a `TargetPut` of a target of `p` that succeeds, the stored `p`
contains the target's identifier exactly once; and it still does after a second
`TargetPut` of a record with the same identifier and the same project, whatever that
second call returns. -/
theorem TargetPut_adds_target_once (env env2 : Env) (s : State) (target second : Target)
    (pref pref2 : Ref_Project) (p : Project)
    (hproject : target.Project = some pref)
    (hstored : projectGet s pref = Result.ok p)
    (hkey : p.ResourceId = pref.ResourceId)
    (hset : p.Targets.Nodup)
    (hok : (TargetPut env s target).2.2 = Result.ok ())
    (hsame : second.ResourceId = (TargetPut env s target).2.1.ResourceId)
    (hproject2 : second.Project = some pref2)
    (hsameProject : pref2.ResourceId = pref.ResourceId) :
    (∃ p1, projectGet (TargetPut env s target).1 pref = Result.ok p1 ∧
      p1.Targets.count (TargetPut env s target).2.1.ResourceId = 1) ∧
    (∃ p2, projectGet (TargetPut env2 (TargetPut env s target).1 second).1 pref
        = Result.ok p2 ∧
      p2.Targets.count (TargetPut env s target).2.1.ResourceId = 1) := by
  obtain ⟨_, hput⟩ := TargetPut_ok hok
  obtain ⟨pref0, p0, hp0, hget0, _, hid, _, _, _, hcascade⟩ := targetPut_ok hput
  rw [hproject] at hp0
  simp only [Option.some.injEq] at hp0
  subst hp0
  rw [hstored] at hget0
  simp only [Result.ok.injEq] at hget0
  subst hget0
  have first : ∃ p1, projectGet (TargetPut env s target).1 pref = Result.ok p1 ∧
      p1.Targets.count (TargetPut env s target).2.1.ResourceId = 1 := by
    rcases hcascade with ⟨hmem, hdb, _⟩ | ⟨hnot, _, hdb, _⟩
    · refine ⟨p, ?_, List.count_eq_one_of_mem hset hmem⟩
      rw [projectGet_of_project_eq s _ pref hdb, hstored]
    · refine ⟨{ p with Targets := p.Targets ++ [(TargetPut env s target).2.1.ResourceId] },
        projectGet_after_put s _ pref _ hkey hdb, ?_⟩
      simp [List.count_append, List.count_eq_zero_of_not_mem hnot]
  refine ⟨first, ?_⟩
  obtain ⟨p1, hget1, hcount⟩ := first
  by_cases hok2 : (TargetPut env2 (TargetPut env s target).1 second).2.2 = Result.ok ()
  · obtain ⟨_, hput2⟩ := TargetPut_ok hok2
    obtain ⟨pref3, p3, hp3, hget3, hv, _, _, _, _, hcascade2⟩ := targetPut_ok hput2
    rw [hproject2] at hp3
    simp only [Option.some.injEq] at hp3
    subst hp3
    rw [projectGet_congr _ pref2 pref hsameProject, hget1] at hget3
    simp only [Result.ok.injEq] at hget3
    subst hget3
    have hne : ¬ second.ResourceId = "" := by rw [hsame]; exact hid
    rw [if_neg hne] at hv
    have hmem : (TargetPut env s target).2.1.ResourceId ∈ p1.Targets :=
      List.count_pos_iff.mp (by omega)
    rcases hcascade2 with ⟨_, hdb, _⟩ | ⟨hnot, _⟩
    · exact ⟨p1, by rw [projectGet_of_project_eq _ _ pref hdb, hget1], hcount⟩
    · rw [hv, hsame] at hnot
      exact absurd hmem hnot
  · rw [TargetPut_not_ok hok2]
    exact ⟨p1, hget1, hcount⟩

/-- C6 on the small store: "web-1" is put as "tgt-001", then put again under that
identifier. -/
theorem TargetPut_adds_target_once_witness :
    (scenarioTarget.Project = some scenarioProjectRef ∧
      projectGet scenarioState scenarioProjectRef = Result.ok scenarioProject ∧
      scenarioProject.ResourceId = scenarioProjectRef.ResourceId ∧
      scenarioProject.Targets.Nodup ∧
      (TargetPut (Env.healthy "tgt-001") scenarioState scenarioTarget).2.2 = Result.ok ()) ∧
    ∃ p2, projectGet
        (TargetPut (Env.healthy "")
          (TargetPut (Env.healthy "tgt-001") scenarioState scenarioTarget).1
          { scenarioTarget with ResourceId := "tgt-001" }).1 scenarioProjectRef
        = Result.ok p2 ∧
      p2.Targets.count
        (TargetPut (Env.healthy "tgt-001") scenarioState scenarioTarget).2.1.ResourceId = 1 :=
  ⟨by decide,
    (TargetPut_adds_target_once (Env.healthy "tgt-001") (Env.healthy "") scenarioState
      scenarioTarget { scenarioTarget with ResourceId := "tgt-001" } scenarioProjectRef
      scenarioProjectRef scenarioProject rfl (by decide) rfl (by decide) (by decide)
      (by decide) rfl rfl).2⟩

/-- C7, as stated, fails: "tgt-001" is stored with parent "proj-A", whose `Targets` hold
it; a `TargetDelete` by a reference that names "proj-B" succeeds, and afterwards the
stored "proj-A" still lists "tgt-001". -/
theorem TargetDelete_foreign_parent_keeps_back_reference :
    TargetGet scenarioTwoProjects { ResourceId := "tgt-001", Name := "", Project := none }
      = Result.ok { ResourceId := "tgt-001", Name := "web-1",
                    Project := some scenarioProjectRef, Payload := "vm" } ∧
    (TargetDelete (Env.healthy "") scenarioTwoProjects scenarioForeignRef).2 = Result.ok () ∧
    projectGet (TargetDelete (Env.healthy "") scenarioTwoProjects scenarioForeignRef).1
        scenarioProjectRef
      = Result.ok { scenarioProject with Targets := ["tgt-001"] } := by
  decide

/-- C7, amended: when the reference handed to `TargetDelete` names the project `p`
(stored under its identifier) - in particular the parent of the stored target the
reference identifies - then after a `TargetDelete` that succeeds `TargetGet` for the
identifier fails with NotFound and the `Targets` of the stored `p` no longer contain
it. -/
theorem TargetDelete_detaches_from_named_parent (env : Env) (s : State) (ref : Ref_Target)
    (rp : Ref_Project) (p : Project)
    (hnamed : ref.Project = some rp)
    (hstored : projectGet s rp = Result.ok p)
    (hkey : p.ResourceId = rp.ResourceId)
    (hok : (TargetDelete env s ref).2 = Result.ok ()) :
    TargetGet (TargetDelete env s ref).1
        { ResourceId := ref.ResourceId, Name := "", Project := none }
      = Result.err Error.statusNotFound ∧
    ∃ p1, projectGet (TargetDelete env s ref).1 rp = Result.ok p1 ∧
      ref.ResourceId ∉ p1.Targets := by
  obtain ⟨_, hdel⟩ := TargetDelete_ok hok
  obtain ⟨rp0, p0, hrp0, hget0, _, _, hb, _, hcascade⟩ := targetDelete_ok hdel
  rw [hnamed] at hrp0
  simp only [Option.some.injEq] at hrp0
  subst hrp0
  rw [projectGet_congr s { ResourceId := rp.ResourceId, Name := "", Basis := none } rp rfl,
    hstored] at hget0
  simp only [Result.ok.injEq] at hget0
  subst hget0
  constructor
  · simp [TargetGet, targetGet, targetIdByRef, dbGet, hb, kvGet_kvDelete]
  · rcases hcascade with ⟨hnot, hdb, _⟩ | ⟨_, _, hdb, _⟩
    · exact ⟨p, by rw [projectGet_of_project_eq s _ rp hdb, hstored], hnot⟩
    · refine ⟨{ p with
          Targets := p.Targets.filter (fun i => !decide (i = ref.ResourceId)) },
        projectGet_after_put s _ rp _ hkey hdb, ?_⟩
      simp

/-- C7, amended, on the store with two projects: the delete of "tgt-001" by a reference that
names "proj-A". -/
theorem TargetDelete_detaches_from_named_parent_witness :
    (scenarioTargetRef.Project = some scenarioProjectRef ∧
      projectGet scenarioTwoProjects scenarioProjectRef
        = Result.ok { scenarioProject with Targets := ["tgt-001"] } ∧
      (TargetDelete (Env.healthy "") scenarioTwoProjects scenarioTargetRef).2
        = Result.ok ()) ∧
    TargetGet (TargetDelete (Env.healthy "") scenarioTwoProjects scenarioTargetRef).1
        { ResourceId := scenarioTargetRef.ResourceId, Name := "", Project := none }
      = Result.err Error.statusNotFound ∧
    ∃ p1, projectGet (TargetDelete (Env.healthy "") scenarioTwoProjects scenarioTargetRef).1
        scenarioProjectRef = Result.ok p1 ∧
      scenarioTargetRef.ResourceId ∉ p1.Targets :=
  ⟨by decide,
    TargetDelete_detaches_from_named_parent (Env.healthy "") scenarioTwoProjects
      scenarioTargetRef scenarioProjectRef { scenarioProject with Targets := ["tgt-001"] }
      rfl (by decide) rfl (by decide)⟩

/-- C8: after a `TargetDelete` that succeeded, the same call repeated right away
fails with a NotFound error (go-memdb reports the index record as not found) and
leaves both stores, the parent project record included, as they were. -/
theorem TargetDelete_twice_fails_NotFound (env env2 : Env) (s : State) (ref : Ref_Target)
    (hok : (TargetDelete env s ref).2 = Result.ok ()) :
    TargetDelete env2 (TargetDelete env s ref).1 ref
      = ((TargetDelete env s ref).1, Result.err Error.memdbNotFound) ∧
    Error.kind Error.memdbNotFound = Kind.NotFound := by
  refine ⟨?_, rfl⟩
  obtain ⟨_, hdel⟩ := TargetDelete_ok hok
  obtain ⟨rp, p, hrp, hget, hid, _, _, hi, hcascade⟩ := targetDelete_ok hdel
  have hparent : ∃ p1, projectGet (TargetDelete env s ref).1
      { ResourceId := rp.ResourceId, Name := "", Basis := none } = Result.ok p1 := by
    rcases hcascade with ⟨_, hdb, _⟩ | ⟨_, _, hdb, _⟩
    · exact ⟨p, by rw [projectGet_of_project_eq s _ _ hdb, hget]⟩
    · by_cases hk : p.ResourceId = rp.ResourceId
      · exact ⟨{ p with
            Targets := p.Targets.filter (fun i => !decide (i = ref.ResourceId)) },
          projectGet_after_put s _
            { ResourceId := rp.ResourceId, Name := "", Basis := none } _ hk hdb⟩
      · refine ⟨p, ?_⟩
        have hget1 := hget
        simp only [projectGet, dbGet] at hget1 ⊢
        rw [hdb, kvGet_kvPut]
        simp only [hk, if_false]
        exact hget1
  obtain ⟨p1, hget1⟩ := hparent
  have hgone : kvGet targetIndexRecord.Id ref.ResourceId
      (TargetDelete env s ref).1.inmem.target = none := by
    rw [hi, kvGet_kvDelete]; simp
  exact TargetDelete_absent_from_index env2 _ ref rp p1 hrp hget1 hid hgone

/-- C8 on the store with two projects: "tgt-001" is deleted twice. -/
theorem TargetDelete_twice_fails_NotFound_witness :
    (TargetDelete (Env.healthy "") scenarioTwoProjects scenarioTargetRef).2 = Result.ok () ∧
    TargetDelete (Env.healthy "")
        (TargetDelete (Env.healthy "") scenarioTwoProjects scenarioTargetRef).1
        scenarioTargetRef
      = ((TargetDelete (Env.healthy "") scenarioTwoProjects scenarioTargetRef).1,
          Result.err Error.memdbNotFound) :=
  ⟨by decide,
    (TargetDelete_twice_fails_NotFound (Env.healthy "") (Env.healthy "") scenarioTwoProjects
      scenarioTargetRef (by decide)).1⟩

/-! ## C9 and C10: the order of the lookups in `TargetFind` -/

/-- C10: in a consistent state, when the identifier of the query is that of the stored
target `A`, `TargetFind` returns the durable record `A`, whatever the name of the
query is (empty, the name of `A`, or the name of another target) and whatever the
case table `rune` of the name index is. -/
theorem TargetFind_identifier_dominates (rune : Char → Char) (s : State) (m A : Target)
    (hc : Consistent s)
    (hA : TargetGet s { ResourceId := m.ResourceId, Name := "", Project := none }
      = Result.ok A) :
    TargetFind rune s m = Result.ok A := by
  simp only [TargetGet, targetGet, targetIdByRef] at hA
  have hentry := dbGet_ok_mem _ _ _ hA
  obtain ⟨r, hr, hrid⟩ := hc.2.2 _ hentry
  simp only at hrid
  have hne : m.ResourceId ≠ "" := by rw [← hrid]; exact hc.1 r hr
  obtain ⟨r1, hr1⟩ := kvGet_isSome_of_mem targetIndexRecord.Id _ r hr
  rw [hrid] at hr1
  have hr1id : r1.Id = m.ResourceId := (kvGet_some _ _ _ _ hr1).2
  simp [TargetFind, targetFind, newTargetIndexRecord, targetIndexFirstId, hne, hr1, targetGet,
    targetIdByRef, hr1id, hA]

/-- C10 on the store with two projects: the query "tgt-001" named "another" finds "tgt-001". -/
theorem TargetFind_identifier_dominates_witness :
    (Consistent scenarioTwoProjects ∧
      TargetGet scenarioTwoProjects { ResourceId := "tgt-001", Name := "", Project := none }
        = Result.ok { ResourceId := "tgt-001", Name := "web-1",
                      Project := some scenarioProjectRef, Payload := "vm" }) ∧
    TargetFind latin1ToLower scenarioTwoProjects
        { ResourceId := "tgt-001", Name := "another", Project := none, Payload := "" }
      = Result.ok { ResourceId := "tgt-001", Name := "web-1",
                    Project := some scenarioProjectRef, Payload := "vm" } :=
  ⟨⟨scenarioTwoProjects_consistent, by decide⟩,
    TargetFind_identifier_dominates latin1ToLower scenarioTwoProjects
      { ResourceId := "tgt-001", Name := "another", Project := none, Payload := "" }
      { ResourceId := "tgt-001", Name := "web-1", Project := some scenarioProjectRef,
        Payload := "vm" }
      scenarioTwoProjects_consistent (by decide)⟩

/-! ## C11: when `TargetFind` fails -/

/-- C12: for a record and a reference with the same `ResourceId`, the same `Name` and
the same parent (both absent, or both present with the same `ResourceId`),
`newTargetIndexRecord` and `newTargetIndexRecordByRef` give the same index record;
an absent parent gives the empty `ProjectId` in both. -/
theorem newTargetIndexRecord_eq_newTargetIndexRecordByRef (m : Target) (ref : Ref_Target)
    (hid : ref.ResourceId = m.ResourceId) (hname : ref.Name = m.Name)
    (hparent : ref.Project.map Ref_Project.ResourceId
      = m.Project.map Ref_Project.ResourceId) :
    newTargetIndexRecord m = newTargetIndexRecordByRef ref ∧
    (m.Project = none → (newTargetIndexRecord m).ProjectId = "") ∧
    (ref.Project = none → (newTargetIndexRecordByRef ref).ProjectId = "") := by
  refine ⟨?_, ?_, ?_⟩
  · cases hm : m.Project with
    | none =>
      cases hr : ref.Project with
      | none => simp [newTargetIndexRecord, newTargetIndexRecordByRef, hm, hr, hid, hname]
      | some q => simp [hm, hr] at hparent
    | some p =>
      cases hr : ref.Project with
      | none => simp [hm, hr] at hparent
      | some q =>
        simp only [hm, hr, Option.map_some', Option.some.injEq] at hparent
        simp [newTargetIndexRecord, newTargetIndexRecordByRef, hm, hr, hid, hname, hparent]
  · intro hm; simp [newTargetIndexRecord, hm]
  · intro hr; simp [newTargetIndexRecordByRef, hr]

/-- C12 on the stored target "tgt-001" and a reference to it that names "proj-A". -/
theorem newTargetIndexRecord_eq_newTargetIndexRecordByRef_witness :
    newTargetIndexRecord
        { ResourceId := "tgt-001", Name := "web-1", Project := some scenarioProjectRef,
          Payload := "vm" }
      = newTargetIndexRecordByRef
        { ResourceId := "tgt-001", Name := "web-1",
          Project := some { ResourceId := "proj-A", Name := "A", Basis := none } } :=
  (newTargetIndexRecord_eq_newTargetIndexRecordByRef
    { ResourceId := "tgt-001", Name := "web-1", Project := some scenarioProjectRef,
      Payload := "vm" }
    { ResourceId := "tgt-001", Name := "web-1",
      Project := some { ResourceId := "proj-A", Name := "A", Basis := none } }
    rfl rfl rfl).1

/-! ## C13: a put under an existing identifier -/

/-- C13: let the bucket "target" and the table "target-index" be in key order, one
entry for each key, as bolt and go-memdb keep them.  A `TargetPut` of a record `r`
with a non-empty identifier that succeeds returns `r` itself, afterwards `TargetGet`
for that identifier returns exactly `r`, and the bucket and the index hold exactly
one entry for the identifier.  The generator plays no part: the record returned is
`r` whatever the call returns, and the whole result is the same whatever the
generator would return. -/
theorem TargetPut_replaces_under_same_identifier (env : Env) (s : State) (r : Target)
    (hid : r.ResourceId ≠ "")
    (hbucket : KeySorted Prod.fst s.db.target)
    (hindex : KeySorted targetIndexRecord.Id s.inmem.target)
    (hok : (TargetPut env s r).2.2 = Result.ok ()) :
    (TargetPut env s r).2.1 = r ∧
    TargetGet (TargetPut env s r).1 { ResourceId := r.ResourceId, Name := "", Project := none }
      = Result.ok r ∧
    (bucketKeys (TargetPut env s r).1).count r.ResourceId = 1 ∧
    (listedIds (TargetPut env s r).1).count r.ResourceId = 1 ∧
    (∀ gen, TargetPut { env with newResourceId := gen } s r = TargetPut env s r) := by
  have hsame : (TargetPut env s r).2.1 = r := by
    rw [TargetPut_fst_snd, targetPut_keeps_identifier env s r hid]
  obtain ⟨_, hput⟩ := TargetPut_ok hok
  obtain ⟨pref, p, _, _, _, _, _, hb, hi, _⟩ := targetPut_ok hput
  rw [hsame] at hb hi
  refine ⟨hsame, ?_, ?_, ?_, fun gen => TargetPut_generator env gen s r hid⟩
  · simp [TargetGet, targetGet, targetIdByRef, hb, dbGet_kvPut_self]
  · rw [bucketKeys, hb]
    exact count_key_kvPut Prod.fst (r.ResourceId, Stored.record r) _ hbucket
  · rw [listedIds_eq, hi]
    exact count_key_kvPut targetIndexRecord.Id (newTargetIndexRecord r) _ hindex

/-- C13 on the store with two projects: "tgt-001" is put again with another name and
payload. -/
theorem TargetPut_replaces_under_same_identifier_witness :
    (("tgt-001" : String) ≠ "" ∧
      KeySorted Prod.fst scenarioTwoProjects.db.target ∧
      KeySorted targetIndexRecord.Id scenarioTwoProjects.inmem.target ∧
      (TargetPut (Env.healthy "tgt-777") scenarioTwoProjects
        { ResourceId := "tgt-001", Name := "web-1b", Project := some scenarioProjectRef,
          Payload := "vm2" }).2.2 = Result.ok ()) ∧
    TargetGet (TargetPut (Env.healthy "tgt-777") scenarioTwoProjects
        { ResourceId := "tgt-001", Name := "web-1b", Project := some scenarioProjectRef,
          Payload := "vm2" }).1
        { ResourceId := "tgt-001", Name := "", Project := none }
      = Result.ok { ResourceId := "tgt-001", Name := "web-1b",
                    Project := some scenarioProjectRef, Payload := "vm2" } :=
  ⟨⟨by decide, List.pairwise_singleton _ _, List.pairwise_singleton _ _, by decide⟩,
    (TargetPut_replaces_under_same_identifier (Env.healthy "tgt-777") scenarioTwoProjects
      { ResourceId := "tgt-001", Name := "web-1b", Project := some scenarioProjectRef,
        Payload := "vm2" }
      (by decide) (List.pairwise_singleton _ _) (List.pairwise_singleton _ _)
      (by decide)).2.1⟩

/-! ## C14: running the rebuild twice -/

/-- C14: let the table "target-index" be in key order, one record for each `Id`.  When
`targetIndexInit` over the bucket "target" succeeds, running it again on the result
succeeds and returns the table of the first run unchanged: every record is replaced
under its `Id` and none is added.  It succeeds whenever every entry of the bucket
decodes to a record with an identifier and a name; and when it fails, it fails
with the same error from any table. -/
theorem targetIndexInit_twice (s : State)
    (hsorted : KeySorted targetIndexRecord.Id s.inmem.target) :
    (∀ s1, targetIndexInit s = Result.ok s1 → targetIndexInit s1 = Result.ok s1) ∧
    ((∀ e ∈ s.db.target, ∃ t, e.2 = Stored.record t ∧ t.ResourceId ≠ "" ∧ t.Name ≠ "") →
      ∃ s1, targetIndexInit s = Result.ok s1) ∧
    (∀ e, targetIndexInit s = Result.err e →
      ∀ tbl, targetIndexInit { s with inmem := { s.inmem with target := tbl } }
        = Result.err e) := by
  refine ⟨?_, ?_, ?_⟩
  · intro s1 h
    unfold targetIndexInit at h
    cases hrun : targetIndexInitEach s.db.target s.inmem.target with
    | panicked => simp [hrun] at h
    | err e => simp [hrun] at h
    | ok idx =>
      simp only [hrun, Result.ok.injEq] at h
      subst h
      have := targetIndexInitEach_again s.db.target s.inmem.target idx hsorted hrun
      simp [targetIndexInit, this]
  · intro hall
    obtain ⟨idx, hrun⟩ := targetIndexInitEach_succeeds s.db.target s.inmem.target hall
    exact ⟨{ s with inmem := { s.inmem with target := idx } },
      by simp [targetIndexInit, hrun]⟩
  · intro e h tbl
    unfold targetIndexInit at h
    cases hrun : targetIndexInitEach s.db.target s.inmem.target with
    | panicked => simp [hrun] at h
    | ok idx => simp [hrun] at h
    | err e1 =>
      simp only [hrun, Result.err.injEq] at h
      subst h
      simp [targetIndexInit, targetIndexInitEach_fails_alike _ _ tbl e1 hrun]

/-- C14 on the store with two projects with its index emptied: the rebuild returns the
store itself, and so does the rebuild run on that. -/
theorem targetIndexInit_twice_witness :
    KeySorted targetIndexRecord.Id
      ({ scenarioTwoProjects with
          inmem := { scenarioTwoProjects.inmem with target := [] } } : State).inmem.target ∧
    targetIndexInit
        { scenarioTwoProjects with inmem := { scenarioTwoProjects.inmem with target := [] } }
      = Result.ok scenarioTwoProjects ∧
    targetIndexInit scenarioTwoProjects = Result.ok scenarioTwoProjects :=
  ⟨List.Pairwise.nil, by decide,
    (targetIndexInit_twice
      { scenarioTwoProjects with inmem := { scenarioTwoProjects.inmem with target := [] } }
      List.Pairwise.nil).1 scenarioTwoProjects (by decide)⟩

/-! ## C15: the parent back-reference invariant -/

/-- C15: let every record of the buckets "target" and "project" be filed under its own
`ResourceId`.  If every target record that has a `Project` reference refers to a
stored project whose `Targets` contain its `ResourceId`, then the same holds in every
state reached by `TargetPut` and `TargetDelete` calls. -/
theorem back_reference_invariant_preserved (s0 : State) (ops : List Op)
    (hkeyed : KeyedByResourceId s0.db.target) (hprojects : ProjectsKeyed s0)
    (hstart : BackReferenced s0) :
    BackReferenced (run s0 ops) :=
  (wellFormed_run s0 ops hkeyed hprojects hstart).2.2

/-- C15 on the store with two projects: a second put, then the delete of "tgt-001". -/
theorem back_reference_invariant_preserved_witness :
    (KeyedByResourceId scenarioTwoProjects.db.target ∧ ProjectsKeyed scenarioTwoProjects ∧
      BackReferenced scenarioTwoProjects) ∧
    BackReferenced (run scenarioTwoProjects scenarioCalls) :=
  ⟨⟨scenarioTwoProjects_keyed, scenarioTwoProjects_projectsKeyed,
      scenarioTwoProjects_backReferenced⟩,
    back_reference_invariant_preserved scenarioTwoProjects scenarioCalls
      scenarioTwoProjects_keyed scenarioTwoProjects_projectsKeyed
      scenarioTwoProjects_backReferenced⟩

/-! ## C16: `TargetGet` reads the bucket only -/

/-- C16: `TargetGet` fails with NotFound exactly when the key `ref.ResourceId` is absent
from the bucket "target"; when a record is stored under the key it returns that
record (bytes that do not decode give the decoding error); and the result is the same
under any index and for any reference with the same `ResourceId`, whatever its name
and parent. -/
theorem TargetGet_is_durable_lookup (s : State) (ref : Ref_Target) :
    (TargetGet s ref = Result.err Error.statusNotFound ↔
      kvGet Prod.fst ref.ResourceId s.db.target = none) ∧
    (∀ k t, kvGet Prod.fst ref.ResourceId s.db.target = some (k, Stored.record t) →
      TargetGet s ref = Result.ok t) ∧
    (∀ k, kvGet Prod.fst ref.ResourceId s.db.target = some (k, Stored.corrupt) →
      TargetGet s ref = Result.err Error.unmarshal) ∧
    (∀ (inmem2 : MemDB) (ref2 : Ref_Target), ref2.ResourceId = ref.ResourceId →
      TargetGet { db := s.db, inmem := inmem2 } ref2 = TargetGet s ref) := by
  refine ⟨?_, ?_, ?_, ?_⟩
  · simp only [TargetGet, targetGet, targetIdByRef, dbGet]
    cases h : kvGet Prod.fst ref.ResourceId s.db.target with
    | none => simp
    | some e =>
      obtain ⟨k, v⟩ := e
      cases v <;> simp
  · intro k t h
    simp [TargetGet, targetGet, targetIdByRef, dbGet, h]
  · intro k h
    simp [TargetGet, targetGet, targetIdByRef, dbGet, h]
  · intro inmem2 ref2 h
    simp [TargetGet, targetGet, targetIdByRef, h]

/-- C16 on the store with two projects: "tgt-001" is read under an emptied index and
through a reference with another name and no parent. -/
theorem TargetGet_is_durable_lookup_witness :
    TargetGet { db := scenarioTwoProjects.db, inmem := { target := [], project := [] } }
        { ResourceId := "tgt-001", Name := "other", Project := none }
      = TargetGet scenarioTwoProjects scenarioTargetRef :=
  (TargetGet_is_durable_lookup scenarioTwoProjects scenarioTargetRef).2.2.2
    { target := [], project := [] }
    { ResourceId := "tgt-001", Name := "other", Project := none } rfl

/-! ## C17: letter case in the two indexes -/

/-- C18: `TargetDelete` on a reference whose `Project` is omitted does not return: the
parent reference is built from `ref.Project.ResourceId`, a nil dereference, and the
call panics (both stores keep their state). -/
theorem TargetDelete_without_parent_panics :
    TargetDelete (Env.healthy "") scenarioTwoProjects
        { ResourceId := "tgt-001", Name := "", Project := none }
      = (scenarioTwoProjects, Result.panicked) := by
  decide

end state
